import Mathlib

/-!
Shallow embedding of the `min-memory` multi-tenant memory server
(`src/storage.py`, `src/tools.py`, `src/auth.py`, `src/main.py`).

The vector index (Qdrant) is modelled as a list of points; the embedding
model and the cosine-similarity scoring are abstracted as explicit
function parameters (`embed : String → Nat` producing an opaque vector
handle, `sim : Nat → Nat → ℚ` scoring a query vector against a stored
vector).  Timestamps (`datetime.now().isoformat()`) are passed in as
explicit `now : String` parameters; ISO timestamps compare
lexicographically, as the Python code compares them with `<`/`>` on
strings.  Python dicts are modelled as insertion-ordered association
lists, mirroring CPython's ordered-dict semantics used by the code.
-/

set_option maxRecDepth 4000

namespace MinMemory

/-- The payload dictionary persisted with every point, as assembled by the
`store_memory` branch of `call_tool` (`src/tools.py`).  Optional keys are
`Option`-valued; `deleted_at` is absent (`none`) until a soft delete. -/
structure Payload where
  user : String
  text : String
  memory_type : String
  scope : String
  entity : String
  project : Option String
  task_id : Option String
  related_to : List String
  relation_types : List (String × String)
  tags : List String
  created_at : String
  updated_at : String
  status : Option String
  priority : Option Int
  deleted : Bool
  deleted_at : Option String
deriving DecidableEq

/-- A stored point: id, opaque vector handle, payload. -/
structure Point where
  id : String
  vec : Nat
  payload : Payload
deriving DecidableEq

/-- The `memories` collection. -/
abbrev Store := List Point

/-- Python truthiness of an optional string argument (`None` and `""` are falsy). -/
def truthy : Option String → Bool
  | none => false
  | some s => s ≠ ""

/-- Python `str.lower()` (character-wise, as for the ASCII data here);
structurally recursive so that concrete witnesses evaluate in the kernel. -/
def pyLower (s : String) : String := ⟨s.data.map Char.toLower⟩

/-- Python `str.upper()` (character-wise). -/
def pyUpper (s : String) : String := ⟨s.data.map Char.toUpper⟩

/-- Python `str.startswith`. -/
def pyStartsWith (s pre : String) : Bool := pre.data.isPrefixOf s.data

/-- Python slicing `s[:n]`: the first `n` characters. -/
def pySlice (s : String) (n : Nat) : String := ⟨s.data.take n⟩

/-- The `memory_type` argument of `build_filter`: absent, a single string,
or a list of strings (`isinstance(memory_type, list)` in the source). -/
inductive MTArg
  | noneArg
  | strArg (s : String)
  | listArg (l : List String)
deriving DecidableEq

/-- Python truthiness of the `memory_type` argument. -/
def MTArg.truthy : MTArg → Bool
  | .noneArg => false
  | .strArg s => s ≠ ""
  | .listArg l => !l.isEmpty

/-- One Qdrant `FieldCondition` as produced by `build_filter`. -/
inductive Cond
  | eqUser (u : String)
  | notDeleted
  | eqScope (v : String)
  | eqProject (v : String)
  | typeOne (v : String)
  | typeAny (l : List String)
  | eqTask (v : String)
  | eqEntity (v : String)
deriving DecidableEq

/-- Matching semantics of a single `FieldCondition` against a payload
(`MatchValue` is equality on the addressed key; `MatchAny` is membership;
a `None`-valued optional key matches no `MatchValue`). -/
def Cond.holds : Cond → Payload → Bool
  | .eqUser u, p => p.user == u
  | .notDeleted, p => p.deleted == false
  | .eqScope v, p => p.scope == v
  | .eqProject v, p => p.project == some v
  | .typeOne v, p => p.memory_type == v
  | .typeAny l, p => l.contains p.memory_type
  | .eqTask v, p => p.task_id == some v
  | .eqEntity v, p => p.entity == v

/-- `Filter(must=conditions)`: all conditions must hold. -/
def condsHold (cs : List Cond) (p : Payload) : Bool :=
  cs.all (fun c => c.holds p)

/-- Helper: the condition list contributed by one optional string
parameter of `build_filter` (`if scope: conditions.append(...)`). -/
def optCond (o : Option String) (mk : String → Cond) : List Cond :=
  match o with
  | none => []
  | some v => if v = "" then [] else [mk v]

/-- `build_filter` from `src/storage.py`: always a `user ==` condition,
a `deleted == False` condition unless `include_deleted`, then one
equality condition per truthy optional parameter (`memory_type` becomes
`MatchAny` when given as a list). -/
def build_filter (user : String) (scope : Option String) (project : Option String)
    (memory_type : MTArg) (task_id : Option String) (entity : Option String)
    (include_deleted : Bool) : List Cond :=
  [Cond.eqUser user]
    ++ (if include_deleted then [] else [Cond.notDeleted])
    ++ optCond scope Cond.eqScope
    ++ optCond project Cond.eqProject
    ++ (match memory_type with
        | .noneArg => []
        | .strArg v => if v = "" then [] else [Cond.typeOne v]
        | .listArg l => if l.isEmpty then [] else [Cond.typeAny l])
    ++ optCond task_id Cond.eqTask
    ++ optCond entity Cond.eqEntity

/-- `qdrant.retrieve(ids=[id])` followed by the `points[0]` access: the
(unique) point with the given id, if any. -/
def qretrieve (s : Store) (id : String) : Option Point :=
  s.find? (fun q => q.id == id)

/-- `qdrant.upsert` with a single point: replace the point with the same
id, or append. -/
def qupsert (s : Store) (pt : Point) : Store :=
  if s.any (fun q => q.id == pt.id) then
    s.map (fun q => if q.id == pt.id then pt else q)
  else s ++ [pt]

/-- `qdrant.set_payload(payload, points=[id])`: replace the payload of the
point with the given id. -/
def qset_payload (s : Store) (id : String) (payload : Payload) : Store :=
  s.map (fun q => if q.id == id then { q with payload := payload } else q)

/-- `qdrant.scroll(scroll_filter, limit)` (first page): the matching
points, in storage order, capped at `limit`. -/
def qscroll (s : Store) (conds : List Cond) (limit : Nat) : List Point :=
  (s.filter (fun pt => condsHold conds pt.payload)).take limit

/-- A similarity-search hit: the point together with its score. -/
structure ScoredPoint where
  pt : Point
  score : ℚ
deriving DecidableEq

/-- Stable descending insertion (helper for `pysortDesc`): `x` is placed
before the first element whose key is `≤` its own, so that among equal
keys earlier elements stay first. -/
def insertDesc (key : α → ℚ) (x : α) : List α → List α
  | [] => [x]
  | y :: ys => if key x < key y then y :: insertDesc key x ys else x :: y :: ys

/-- Stable sort by descending key, the semantics of Python's
`sorted(..., key=..., reverse=True)` / `list.sort(key=..., reverse=True)`
(any two stable descending sorts agree pointwise). -/
def pysortDesc (key : α → ℚ) : List α → List α
  | [] => []
  | x :: xs => insertDesc key x (pysortDesc key xs)

/-- `qdrant.query_points(query, query_filter, limit)`: score every
matching point against the query vector, order by descending score, cap
at `limit`. -/
def qquery (sim : Nat → Nat → ℚ) (qv : Nat) (s : Store) (conds : List Cond)
    (limit : Nat) : List ScoredPoint :=
  let scored := (s.filter (fun pt => condsHold conds pt.payload)).map
    (fun pt => { pt := pt, score := sim qv pt.vec })
  (pysortDesc (fun r => r.score) scored).take limit

/-! ### Model of `difflib.SequenceMatcher(None, a, b).ratio()`

`search_entities` scores entities with Python's
`SequenceMatcher(None, query, entity.lower()).ratio()` (stdlib `difflib`,
external to the repository).  We model its documented algorithm: find the
longest matching block — among blocks of maximal length, the one starting
earliest in `a`, then earliest in `b` — recurse on the pieces to the left
and to the right, sum the matched lengths `M`, and return `2*M / (len(a)
+ len(b))` (`1` when both are empty).  The junk/autojunk heuristics are
omitted: the call site passes no junk predicate, and autojunk only
affects sequences of length ≥ 200. -/

/-- Length of the longest common prefix of two character lists. -/
def commonRun : List Char → List Char → Nat
  | a :: as, b :: bs => if a = b then commonRun as bs + 1 else 0
  | _, _ => 0

/-- `find_longest_match` over whole sequences: the triple `(i, j, k)`
with maximal `k` such that `a[i:i+k] == b[j:j+k]`, smallest `i` then
smallest `j` among maximal blocks; `(0, 0, 0)` when nothing matches. -/
def flmBest (a b : List Char) : Nat × Nat × Nat :=
  (List.range a.length).foldl (fun best i =>
    (List.range b.length).foldl (fun best j =>
      let k := commonRun (a.drop i) (b.drop j)
      if best.2.2 < k then (i, j, k) else best) best) (0, 0, 0)

/-- Total size `M` of the matching blocks (fueled structural recursion;
the recursion strictly decreases the length of the first sequence, so
fuel `a.length + 1` as supplied by `matchingBlocksTotal` never runs out —
see `mbtFuel_congr`). -/
def mbtFuel : Nat → List Char → List Char → Nat
  | 0, _, _ => 0
  | fuel + 1, a, b =>
    let t := flmBest a b
    if t.2.2 = 0 then 0
    else
      mbtFuel fuel (a.take t.1) (b.take t.2.1) + t.2.2
        + mbtFuel fuel (a.drop (t.1 + t.2.2)) (b.drop (t.2.1 + t.2.2))

/-- Total size of the matching blocks between `a` and `b`. -/
def matchingBlocksTotal (a b : List Char) : Nat :=
  mbtFuel (a.length + 1) a b

/-- `SequenceMatcher(None, a, b).ratio()`:
`2*M / (len(a) + len(b))`, `1.0` for two empty sequences. -/
def sm_ratio (a b : String) : ℚ :=
  let matched := matchingBlocksTotal a.data b.data
  let total := a.data.length + b.data.length
  if total = 0 then 1 else (2 * matched : ℚ) / (total : ℚ)

/-- Round half-to-even to the nearest integer (CPython's rounding mode
for `round`). -/
def roundHalfEven (x : ℚ) : ℤ :=
  let f := ⌊x⌋
  let r := x - (f : ℚ)
  if r < 1/2 then f
  else if 1/2 < r then f + 1
  else if f % 2 = 0 then f else f + 1

/-- Python's `round(x, 3)` as used on the similarity score
(`round(score, 3)` in the `search_entities` branch): half-to-even
rounding to the 3-decimal grid, in exact rational arithmetic.  (The
program rounds the IEEE double nearest to this rational; the idealized
rational semantics agrees except when that double's representation error
crosses a half-way boundary.) -/
def pyRound3 (x : ℚ) : ℚ := (roundHalfEven (x * 1000) : ℚ) / 1000

/-! ### The tool operations (`call_tool` branches in `src/tools.py`)

Each branch is embedded as one function taking the resolved user, the
branch's arguments, and the store; branches that write return the new
store as well.  `uuid5 : String → String` abstracts
`uuid.uuid5(namespace, seed)` and `now : String` abstracts
`datetime.now().isoformat()`. -/

/-- `generate_memory_id`: uuid5 of the seed `f"{entity}:{timestamp}"`. -/
def generate_memory_id (uuid5 : String → String) (entity : String) (timestamp : String) : String :=
  uuid5 (entity ++ ":" ++ timestamp)

/-- One item of the `search` branch's result list. -/
structure SearchItem where
  id : String
  title : String
  url : String
deriving DecidableEq

/-- The `search` branch: similarity search over the caller's (non-deleted)
memories, fixed limit 10, titles truncated to 80 characters. -/
def search_tool (embed : String → Nat) (sim : Nat → Nat → ℚ) (u : String)
    (query : String) (s : Store) : List SearchItem :=
  let query_embedding := embed query
  let query_filter := build_filter u none none .noneArg none none false
  let response := qquery sim query_embedding s query_filter 10
  response.map (fun r =>
    { id := r.pt.id, title := pySlice r.pt.payload.text 80, url := "mcp://memory/" ++ r.pt.id })

/-- The `fetch` branch: retrieve by id, then ownership check; the result
is the returned `TextContent` text. -/
def fetch_tool (u : String) (memory_id : String) (s : Store) : String :=
  match qretrieve s memory_id with
  | none => "Error: Memory not found"
  | some point =>
    if point.payload.user ≠ u then "Error: Unauthorized"
    else point.payload.text

/-- Arguments of the `store_memory` branch (optional keys via
`arguments.get`, with the source's defaults). -/
structure StoreArgs where
  text : String
  memory_type : String
  scope : String
  entity : String
  project : Option String
  task_id : Option String
  related_to : List String
  relation_types : List (String × String)
  tags : List String
  status : Option String
  priority : Option Int
deriving DecidableEq

/-- Result of the `store_memory` branch. -/
inductive StoreResult
  | validationError (msg : String)
  | stored (memory_id : String)
deriving DecidableEq

/-- The `store_memory` branch: scope/project/task_id validation first,
then embed, build the payload with `deleted := false`, and upsert. -/
def store_memory_tool (embed : String → Nat) (uuid5 : String → String) (now : String)
    (u : String) (a : StoreArgs) (s : Store) : StoreResult × Store :=
  if (a.scope = "project" ∨ a.scope = "task") ∧ truthy a.project = false then
    (.validationError "Error: project is required when scope is 'project' or 'task'", s)
  else if a.scope = "task" ∧ truthy a.task_id = false then
    (.validationError "Error: task_id is required when scope is 'task'", s)
  else
    let embedding := embed a.text
    let memory_id := generate_memory_id uuid5 a.entity now
    let payload : Payload := {
      user := u, text := a.text, memory_type := a.memory_type, scope := a.scope,
      entity := a.entity, project := a.project, task_id := a.task_id,
      related_to := a.related_to, relation_types := a.relation_types, tags := a.tags,
      created_at := now, updated_at := now, status := a.status, priority := a.priority,
      deleted := false, deleted_at := none }
    (.stored memory_id, qupsert s { id := memory_id, vec := embedding, payload := payload })

/-- Arguments of the `retrieve_context` branch (source defaults:
`include_related = true`, `limit = 10`, `score_threshold = 0`). -/
structure RetrieveArgs where
  query : String
  scope : Option String
  memory_type : MTArg
  project : Option String
  task_id : Option String
  include_related : Bool
  limit : Nat
  score_threshold : ℚ
deriving DecidableEq

/-- One resolved related memory (`{id, text, relation}`). -/
structure RelatedMemory where
  id : String
  text : String
  relation : String
deriving DecidableEq

/-- One entry of the `retrieve_context` result list.  The source attaches
the `related_memories` key only when the resolved list is non-empty; an
absent key is modelled as `[]`. -/
structure ContextMemory where
  id : String
  text : String
  memory_type : String
  scope : String
  entity : String
  project : Option String
  score : ℚ
  created_at : String
  tags : List String
  related_memories : List RelatedMemory
deriving DecidableEq

/-- Related-memory resolution inside `retrieve_context`: each id of
`related_to` is retrieved; hits owned by the caller become
`{id, text, relation}` with the relation looked up in `relation_types`
(default `"related"`); misses are skipped. -/
def resolve_related (u : String) (s : Store) (p : Payload) : List RelatedMemory :=
  p.related_to.filterMap (fun rel_id =>
    match qretrieve s rel_id with
    | some relPt =>
      if relPt.payload.user == u then
        some { id := rel_id, text := relPt.payload.text,
               relation := (p.relation_types.lookup rel_id).getD "related" }
      else none
    | none => none)

/-- The `retrieve_context` branch: hierarchical global/project merge when
`project` is truthy and `scope` is not, otherwise a single filtered
search; then the score-threshold filter and context assembly. -/
def retrieve_context_tool (embed : String → Nat) (sim : Nat → Nat → ℚ) (u : String)
    (a : RetrieveArgs) (s : Store) : List ContextMemory :=
  let query_embedding := embed a.query
  let results :=
    if truthy a.project ∧ truthy a.scope = false then
      let global_filter := build_filter u (some "global") none a.memory_type a.task_id none false
      let project_filter := build_filter u none a.project a.memory_type a.task_id none false
      let global_response := qquery sim query_embedding s global_filter (a.limit / 2)
      let project_response := qquery sim query_embedding s project_filter (a.limit / 2)
      (pysortDesc (fun r => r.score) (global_response ++ project_response)).take a.limit
    else
      qquery sim query_embedding s
        (build_filter u a.scope a.project a.memory_type a.task_id none false) a.limit
  let filtered_results := results.filter (fun r => a.score_threshold ≤ r.score)
  filtered_results.map (fun r =>
    { id := r.pt.id, text := r.pt.payload.text, memory_type := r.pt.payload.memory_type,
      scope := r.pt.payload.scope, entity := r.pt.payload.entity,
      project := r.pt.payload.project, score := r.score,
      created_at := r.pt.payload.created_at, tags := r.pt.payload.tags,
      related_memories := if a.include_related then resolve_related u s r.pt.payload else [] })

/-- Result of the `set_project` branch.  The source's create-branch JSON
carries `created: true` and no `last_updated`; the exists-branch JSON
carries no `created` key (modelled `created := false`) and a
`last_updated`. -/
structure SetProjectResult where
  project : String
  projExists : Bool
  created : Bool
  memory_count : Nat
  by_type : List (String × Nat)
  last_updated : Option String
deriving DecidableEq

/-- `by_type[t] = by_type.get(t, 0) + 1` on an insertion-ordered dict. -/
def histAdd : List (String × Nat) → String → List (String × Nat)
  | [], k => [(k, 1)]
  | (q, n) :: rest, k => if q = k then (q, n + 1) :: rest else (q, n) :: histAdd rest k

/-- The `by_type` histogram loop of the `set_project` branch. -/
def byTypeFold (results : List Point) : List (String × Nat) :=
  results.foldl (fun m pt => histAdd m pt.payload.memory_type) []

/-- The `last_updated` maximum loop of the `set_project` branch
(`if updated: if not last_updated or updated > last_updated: ...`). -/
def lastUpdatedFold (results : List Point) : Option String :=
  results.foldl (fun acc pt =>
    if pt.payload.updated_at ≠ "" then
      match acc with
      | none => some pt.payload.updated_at
      | some m => if m < pt.payload.updated_at then some pt.payload.updated_at else acc
    else acc) none

/-- The `set_project` branch (the spec's `ensure_project`): scan the
caller's records for the project (limit 1000); create a placeholder
`project_context` record when nothing matches, otherwise summarise. -/
def set_project_tool (embed : String → Nat) (uuid5 : String → String) (now : String)
    (u : String) (project : String) (s : Store) : SetProjectResult × Store :=
  let project_filter := build_filter u none (some project) .noneArg none none false
  let results := qscroll s project_filter 1000
  if results.isEmpty then
    let memory_id := generate_memory_id uuid5 project now
    let text := "Project: " ++ project
    let payload : Payload := {
      user := u, text := text, memory_type := "project_context", scope := "project",
      entity := project, project := some project, task_id := none, related_to := [],
      relation_types := [], tags := [], created_at := now, updated_at := now,
      status := none, priority := none, deleted := false, deleted_at := none }
    ({ project := project, projExists := false, created := true, memory_count := 1,
       by_type := [("project_context", 1)], last_updated := none },
     qupsert s { id := memory_id, vec := embed text, payload := payload })
  else
    let memory_count := results.length
    let by_type := byTypeFold results
    let last_updated := lastUpdatedFold results
    ({ project := project, projExists := true, created := false, memory_count := memory_count,
       by_type := by_type, last_updated := last_updated }, s)

/-- Result of the `link_memories` branch. -/
inductive LinkResult
  | notFound (memory_id : String)
  | unauthorized
  | linked (memory_id related_id relation_type : String)
deriving DecidableEq

/-- `relation_types[related_id] = relation_type` on an insertion-ordered
dict: overwrite in place, or append a new key. -/
def assocSet : List (String × String) → String → String → List (String × String)
  | [], k, v => [(k, v)]
  | (q, w) :: rest, k, v => if q = k then (q, v) :: rest else (q, w) :: assocSet rest k v

/-- The `link_memories` branch: retrieve, ownership check, then append
`related_id` to `related_to` unless present, overwrite its relation type,
update `updated_at`, and write the payload back. -/
def link_memories_tool (now : String) (u memory_id related_id relation_type : String)
    (s : Store) : LinkResult × Store :=
  match qretrieve s memory_id with
  | none => (.notFound memory_id, s)
  | some point =>
    if point.payload.user ≠ u then (.unauthorized, s)
    else
      let related_to := if related_id ∈ point.payload.related_to
        then point.payload.related_to else point.payload.related_to ++ [related_id]
      let relation_types := assocSet point.payload.relation_types related_id relation_type
      let payload := { point.payload with
        related_to := related_to, relation_types := relation_types, updated_at := now }
      (.linked memory_id related_id relation_type, qset_payload s memory_id payload)

/-- One aggregated entity of the `list_entities` branch. -/
structure EntityInfo where
  name : String
  scope : String
  project : Option String
  memory_count : Nat
  first_seen : String
  last_updated : String
deriving DecidableEq

/-- The per-point update of an entity aggregate: bump the count, lower
`first_seen` / raise `last_updated` (truthy timestamps only). -/
def updEntity (e : EntityInfo) (p : Payload) : EntityInfo :=
  let e := { e with memory_count := e.memory_count + 1 }
  let e := if p.created_at ≠ "" ∧ p.created_at < e.first_seen
    then { e with first_seen := p.created_at } else e
  if p.updated_at ≠ "" ∧ e.last_updated < p.updated_at
    then { e with last_updated := p.updated_at } else e

/-- In-place update of the value at a key of an insertion-ordered dict. -/
def assocUpdate (m : List (String × EntityInfo)) (k : String)
    (f : EntityInfo → EntityInfo) : List (String × EntityInfo) :=
  m.map (fun kv => if kv.1 = k then (kv.1, f kv.2) else kv)

/-- Result of the `list_entities` branch. -/
structure ListEntitiesResult where
  entities : List EntityInfo
  count : Nat
deriving DecidableEq

/-- The `list_entities` branch: scroll the caller's matching records
(limit 10000) and aggregate by entity label, skipping falsy labels. -/
def list_entities_tool (u : String) (scope project : Option String) (memory_type : MTArg)
    (s : Store) : ListEntitiesResult :=
  let query_filter := build_filter u scope project memory_type none none false
  let results := qscroll s query_filter 10000
  let entities_map := results.foldl (fun m pt =>
    if pt.payload.entity = "" then m
    else
      let m := if (m.lookup pt.payload.entity).isNone
        then m ++ [(pt.payload.entity,
          ({ name := pt.payload.entity, scope := pt.payload.scope,
             project := pt.payload.project, memory_count := 0,
             first_seen := pt.payload.created_at,
             last_updated := pt.payload.updated_at } : EntityInfo))]
        else m
      assocUpdate m pt.payload.entity (fun e => updEntity e pt.payload)) []
  { entities := entities_map.map (fun kv => kv.2), count := entities_map.length }

/-- One match of the `search_entities` branch.  `score` carries the
value the source stores, returns and sorts on: `round(score, 3)` of the
similarity ratio, modelled by `pyRound3`. -/
structure EntityMatch where
  entity : String
  scope : String
  project : Option String
  score : ℚ
deriving DecidableEq

/-- The distinct-entity collection loop of the `search_entities` branch:
the caller's visible entity labels in first-occurrence (enumeration)
order, each with the scope/project of its first record. -/
def search_entities_set (u : String) (scope_filter : Option String) (s : Store) :
    List (String × String × Option String) :=
  let query_filter := if truthy scope_filter
    then build_filter u scope_filter none .noneArg none none false
    else build_filter u none none .noneArg none none false
  let results := qscroll s query_filter 10000
  results.foldl (fun m pt =>
    if pt.payload.entity ≠ "" ∧ (m.lookup pt.payload.entity).isNone
    then m ++ [(pt.payload.entity, (pt.payload.scope, pt.payload.project))]
    else m) []

/-- The unsorted match list of the `search_entities` branch: every
distinct visible entity label scored against the lowercased query, raw
zero scores excluded (`if score > 0`), the stored score rounded to three
decimals (`round(score, 3)`), in enumeration order. -/
def search_entities_matches (u : String) (query : String) (scope_filter : Option String)
    (s : Store) : List EntityMatch :=
  let q := pyLower query
  (search_entities_set u scope_filter s).filterMap (fun kv =>
    let score := sm_ratio q (pyLower kv.1)
    if 0 < score then
      some ({ entity := kv.1, scope := kv.2.1, project := kv.2.2,
              score := pyRound3 score } : EntityMatch)
    else none)

/-- The `search_entities` branch: sort the match list by descending
(rounded) score — Python's stable `list.sort(..., reverse=True)` — and
cap at `limit`. -/
def search_entities_tool (u : String) (query : String) (scope_filter : Option String)
    (limit : Nat) (s : Store) : List EntityMatch :=
  (pysortDesc (fun m => m.score) (search_entities_matches u query scope_filter s)).take limit

/-- Result of the `delete_memory` branch. -/
inductive DeleteResult
  | notFound (memory_id : String)
  | unauthorized
  | alreadyDeleted (memory_id : String)
  | deleted (memory_id : String) (deleted_at : String)
deriving DecidableEq

/-- The `delete_memory` branch: retrieve, ownership check, no-op success
on an already-deleted record, otherwise set `deleted`, `deleted_at`,
`updated_at` and write the payload back. -/
def delete_memory_tool (now : String) (u memory_id : String) (s : Store) :
    DeleteResult × Store :=
  match qretrieve s memory_id with
  | none => (.notFound memory_id, s)
  | some point =>
    if point.payload.user ≠ u then (.unauthorized, s)
    else if point.payload.deleted then (.alreadyDeleted memory_id, s)
    else
      let payload := { point.payload with
        deleted := true, deleted_at := some now, updated_at := now }
      (.deleted memory_id now, qset_payload s memory_id payload)

/-! ### The identity gate (`src/auth.py`, `src/main.py`) -/

/-- An inbound HTTP request: method, path, headers.  Header lookup is
case-insensitive, as in Starlette. -/
structure HRequest where
  method : String
  path : String
  headers : List (String × String)

/-- `request.headers.get(k)` for a lowercase key `k`. -/
def hget (r : HRequest) (k : String) : Option String :=
  (r.headers.map (fun kv => (pyLower kv.1, kv.2))).lookup k

/-- `get_current_user` from `src/auth.py`: the trusted backend key is
checked first (`hmac.compare_digest`, modelled as string equality — the
constant-time aspect is a timing property outside this embedding); a
matching key with a missing/empty `x-user-id` yields `none` without
falling through; everything else falls through to the OAuth subject
(`mcp_auth.auth_info.subject`, abstracted as `oauth_subject`). -/
def get_current_user (trusted_backend_key : Option String) (req : Option HRequest)
    (oauth_subject : Option String) : Option String :=
  match trusted_backend_key, req with
  | some tk, some r =>
    if tk ≠ "" then
      match hget r "x-backend-key" with
      | some bk =>
        if bk ≠ "" ∧ bk = tk then
          match hget r "x-user-id" with
          | some uid => if uid = "" then none else some uid
          | none => none
        else oauth_subject
      | none => oauth_subject
    else oauth_subject
  | _, _ => oauth_subject

/-- How `AuthGuardMiddleware.dispatch` answers a request: pass it on to
the routes (`next`), reject with the 400 `missing_user_id` JSON
(`badRequest`), reject with the empty-body 401 (`unauthorizedEmpty`), or
delegate to the bearer-token middleware (`bearer`). -/
inductive DispatchOutcome
  | next
  | badRequest
  | unauthorizedEmpty
  | bearer
deriving DecidableEq

/-- `EXEMPT_PATHS` from `src/main.py`. -/
def EXEMPT_PATHS : List String := ["/health", "/register", "/oauth/token"]

/-- `EXEMPT_PREFIXES` from `src/main.py`. -/
def EXEMPT_PREFIXES : List String := ["/.well-known"]

/-- `AuthGuardMiddleware.dispatch` from `src/main.py`: exemptions first,
then the trusted-backend-key gate (400 on a matching key without
`x-user-id`), then the bare-`/mcp`-without-authorization 401, else the
bearer middleware. -/
def dispatch (trusted_backend_key : Option String) (r : HRequest) : DispatchOutcome :=
  if pyUpper r.method = "OPTIONS" ∨ r.path ∈ EXEMPT_PATHS
      ∨ EXEMPT_PREFIXES.any (fun p => pyStartsWith r.path p) then
    .next
  else
    let backendOutcome : Option DispatchOutcome :=
      match trusted_backend_key with
      | some tk =>
        if tk ≠ "" then
          match hget r "x-backend-key" with
          | some bk =>
            if bk ≠ "" ∧ bk = tk then
              some (match hget r "x-user-id" with
                | some uid => if uid = "" then .badRequest else .next
                | none => .badRequest)
            else none
          | none => none
        else none
      | none => none
    match backendOutcome with
    | some o => o
    | none =>
      if r.path = "/mcp" ∧ (hget r "authorization").isNone then .unauthorizedEmpty
      else .bearer

/-! ### Helper lemmas: the stable descending sort -/

theorem insertDesc_perm (key : α → ℚ) (x : α) (l : List α) :
    List.Perm (insertDesc key x l) (x :: l) := by
  induction l with
  | nil => simp [insertDesc]
  | cons y ys ih =>
    simp only [insertDesc]
    by_cases h : key x < key y
    · rw [if_pos h]
      exact (ih.cons y).trans (List.Perm.swap x y ys)
    · rw [if_neg h]

theorem pysortDesc_perm (key : α → ℚ) (l : List α) : List.Perm (pysortDesc key l) l := by
  induction l with
  | nil => simp [pysortDesc]
  | cons x xs ih =>
    simp only [pysortDesc]
    exact (insertDesc_perm key x (pysortDesc key xs)).trans (ih.cons x)

theorem pairwise_insertDesc (key : α → ℚ) (x : α) (l : List α)
    (h : l.Pairwise (fun a b => key b ≤ key a)) :
    (insertDesc key x l).Pairwise (fun a b => key b ≤ key a) := by
  induction l with
  | nil => simp [insertDesc]
  | cons y ys ih =>
    rw [List.pairwise_cons] at h
    simp only [insertDesc]
    by_cases hxy : key x < key y
    · rw [if_pos hxy]
      rw [List.pairwise_cons]
      refine ⟨fun b hb => ?_, ih h.2⟩
      rcases List.mem_cons.mp ((insertDesc_perm key x ys).mem_iff.mp hb) with hbx | hby
      · rw [hbx]; exact le_of_lt hxy
      · exact h.1 b hby
    · rw [if_neg hxy]
      rw [List.pairwise_cons]
      refine ⟨fun b hb => ?_, List.pairwise_cons.mpr h⟩
      rcases List.mem_cons.mp hb with hbx | hby
      · rw [hbx]; exact le_of_not_lt hxy
      · exact le_trans (h.1 b hby) (le_of_not_lt hxy)

theorem pairwise_pysortDesc (key : α → ℚ) (l : List α) :
    (pysortDesc key l).Pairwise (fun a b => key b ≤ key a) := by
  induction l with
  | nil => simp [pysortDesc]
  | cons x xs ih => exact pairwise_insertDesc key x _ ih

/-- Stability of the insertion step: filtering any key level commutes
with the insertion. -/
theorem filter_insertDesc (key : α → ℚ) (c : ℚ) (x : α) (l : List α) :
    (insertDesc key x l).filter (fun y => key y == c)
      = ((x :: l).filter (fun y => key y == c)) := by
  induction l with
  | nil => rfl
  | cons y ys ih =>
    simp only [insertDesc]
    by_cases hxy : key x < key y
    · rw [if_pos hxy]
      by_cases hxc : key x == c
      · have hyc : (key y == c) = false := by
          have : key y ≠ c := by
            intro hy
            exact absurd (beq_iff_eq.mp hxc) (by rw [hy] at hxy; exact ne_of_lt hxy)
          simp [this]
        simp only [List.filter_cons, hyc, hxc, ih]
        simp [List.filter_cons, hxc, hyc]
      · have hxc2 : (key x == c) = false := by simp_all
        simp only [List.filter_cons, hxc2, ih]
        by_cases hyc : key y == c <;> simp [List.filter_cons, hyc, hxc2]
    · rw [if_neg hxy]

/-- Stability of the sort: the elements at any fixed key level keep
their original relative order (Python `list.sort` is stable). -/
theorem filter_pysortDesc (key : α → ℚ) (c : ℚ) (l : List α) :
    (pysortDesc key l).filter (fun y => key y == c) = l.filter (fun y => key y == c) := by
  induction l with
  | nil => rfl
  | cons x xs ih =>
    simp only [pysortDesc]
    rw [filter_insertDesc]
    by_cases hxc : key x == c <;> simp [List.filter_cons, hxc, ih]

/-! ### Helper lemmas: the store model -/

theorem mem_qquery {sim : Nat → Nat → ℚ} {qv : Nat} {s : Store} {conds : List Cond}
    {limit : Nat} {r : ScoredPoint} (h : r ∈ qquery sim qv s conds limit) :
    r.pt ∈ s ∧ condsHold conds r.pt.payload = true ∧ r.score = sim qv r.pt.vec := by
  unfold qquery at h
  have h1 := List.take_subset _ _ h
  have h2 := (pysortDesc_perm (fun r : ScoredPoint => r.score) _).mem_iff.mp h1
  rcases List.mem_map.mp h2 with ⟨pt, hpt, heq⟩
  rcases List.mem_filter.mp hpt with ⟨hmem, hcond⟩
  subst heq
  exact ⟨hmem, hcond, rfl⟩

theorem length_qquery (sim : Nat → Nat → ℚ) (qv : Nat) (s : Store) (conds : List Cond)
    (limit : Nat) : (qquery sim qv s conds limit).length ≤ limit := by
  simp only [qquery]
  exact List.length_take_le _ _

theorem mem_qscroll {s : Store} {conds : List Cond} {limit : Nat} {pt : Point}
    (h : pt ∈ qscroll s conds limit) : pt ∈ s ∧ condsHold conds pt.payload = true := by
  unfold qscroll at h
  exact List.mem_filter.mp (List.take_subset _ _ h)

/-- With unique ids, retrieving the id of a stored point finds exactly
that point. -/
theorem qretrieve_of_mem_nodup {s : Store} {pt : Point}
    (hnd : (s.map Point.id).Nodup) (hmem : pt ∈ s) : qretrieve s pt.id = some pt := by
  induction s with
  | nil => cases hmem
  | cons q rest ih =>
    rw [List.map_cons, List.nodup_cons] at hnd
    unfold qretrieve
    rcases List.mem_cons.mp hmem with rfl | hrest
    · simp [List.find?]
    · have hne : (q.id == pt.id) = false := by
        have : q.id ≠ pt.id := by
          intro he
          exact hnd.1 (he ▸ List.mem_map_of_mem Point.id hrest)
        simp [this]
      simp only [List.find?, hne]
      exact ih hnd.2 hrest

/-- The payload write leaves every point with a different id untouched. -/
theorem mem_qset_payload_of_ne {s : Store} {pt : Point} {id : String} {payload : Payload}
    (hmem : pt ∈ s) (hne : pt.id ≠ id) : pt ∈ qset_payload s id payload := by
  unfold qset_payload
  have : (if pt.id == id then { pt with payload := payload } else pt) = pt := by
    simp [hne]
  exact this ▸ List.mem_map_of_mem _ hmem

/-- Retrieval after a payload write to the same id. -/
theorem qretrieve_qset_payload {s : Store} {id : String} {pt : Point} {payload : Payload}
    (h : qretrieve s id = some pt) :
    qretrieve (qset_payload s id payload) id = some { pt with payload := payload } := by
  induction s with
  | nil => simp [qretrieve] at h
  | cons q rest ih =>
    by_cases hq : (q.id == id) = true
    · have hqpt : q = pt := by
        simp only [qretrieve, List.find?, hq] at h
        exact Option.some.inj h
      subst hqpt
      simp [qretrieve, qset_payload, List.find?, hq]
    · have hq2 : (q.id == id) = false := by simpa using hq
      have hfind : qretrieve rest id = some pt := by
        simp only [qretrieve, List.find?, hq2] at h
        exact h
      have ihh := ih hfind
      simp only [qretrieve, qset_payload, List.map_cons, hq2, Bool.false_eq_true,
        if_false, List.find?] at ihh ⊢
      exact ihh

theorem condsHold_append (xs ys : List Cond) (p : Payload) :
    condsHold (xs ++ ys) p = (condsHold xs p && condsHold ys p) := by
  simp [condsHold, List.all_append]

/-! ### Helper lemmas: the similarity ratio is bounded -/

theorem commonRun_le_left : ∀ (a b : List Char), commonRun a b ≤ a.length := by
  intro a
  induction a with
  | nil => intro b; cases b <;> simp [commonRun]
  | cons x xs ih =>
    intro b
    cases b with
    | nil => simp [commonRun]
    | cons y ys =>
      simp only [commonRun, List.length_cons]
      by_cases h : x = y
      · rw [if_pos h]
        exact Nat.succ_le_succ (ih ys)
      · rw [if_neg h]
        exact Nat.zero_le _

theorem commonRun_le_right : ∀ (a b : List Char), commonRun a b ≤ b.length := by
  intro a
  induction a with
  | nil => intro b; cases b <;> simp [commonRun]
  | cons x xs ih =>
    intro b
    cases b with
    | nil => simp [commonRun]
    | cons y ys =>
      simp only [commonRun, List.length_cons]
      by_cases h : x = y
      · rw [if_pos h]
        exact Nat.succ_le_succ (ih ys)
      · rw [if_neg h]
        exact Nat.zero_le _

/-- Invariant preservation through `List.foldl`. -/
theorem foldl_invariant {α β : Type} (P : β → Prop) (f : β → α → β) :
    ∀ (l : List α) (init : β), P init → (∀ acc x, x ∈ l → P acc → P (f acc x)) →
    P (l.foldl f init) := by
  intro l
  induction l with
  | nil => intro init h _; exact h
  | cons x xs ih =>
    intro init h hstep
    exact ih (f init x) (hstep init x (List.mem_cons_self x xs) h)
      (fun acc y hy hacc => hstep acc y (List.mem_cons_of_mem x hy) hacc)

/-- The best block never runs past the end of either sequence. -/
theorem flmBest_bound (a b : List Char) :
    (flmBest a b).1 + (flmBest a b).2.2 ≤ a.length
      ∧ (flmBest a b).2.1 + (flmBest a b).2.2 ≤ b.length := by
  unfold flmBest
  apply foldl_invariant
    (fun t : Nat × Nat × Nat => t.1 + t.2.2 ≤ a.length ∧ t.2.1 + t.2.2 ≤ b.length)
  · simp
  · intro acc i hi hacc
    apply foldl_invariant
      (fun t : Nat × Nat × Nat => t.1 + t.2.2 ≤ a.length ∧ t.2.1 + t.2.2 ≤ b.length)
    · exact hacc
    · intro acc2 j hj hacc2
      dsimp only
      by_cases h : acc2.2.2 < commonRun (a.drop i) (b.drop j)
      · rw [if_pos h]
        have h1 := commonRun_le_left (a.drop i) (b.drop j)
        have h2 := commonRun_le_right (a.drop i) (b.drop j)
        rw [List.length_drop] at h1 h2
        have hi2 := List.mem_range.mp hi
        have hj2 := List.mem_range.mp hj
        constructor <;> dsimp only <;> omega
      · rw [if_neg h]
        exact hacc2

/-- The matched total is bounded by both lengths (by strong induction on
the fuel: every recursive call strictly shrinks the first sequence). -/
theorem mbtFuel_le : ∀ (fuel : Nat) (a b : List Char), a.length < fuel →
    mbtFuel fuel a b ≤ min a.length b.length := by
  intro fuel
  induction fuel with
  | zero =>
    intro a b h
    exact absurd h (Nat.not_lt_zero _)
  | succ f ih =>
    intro a b h
    simp only [mbtFuel]
    by_cases hk : (flmBest a b).2.2 = 0
    · rw [if_pos hk]
      exact Nat.zero_le _
    · rw [if_neg hk]
      have hb := flmBest_bound a b
      have hk1 : 1 ≤ (flmBest a b).2.2 := Nat.one_le_iff_ne_zero.mpr hk
      have hl1 : (a.take (flmBest a b).1).length = (flmBest a b).1 := by
        rw [List.length_take]; omega
      have hl2 : (b.take (flmBest a b).2.1).length = (flmBest a b).2.1 := by
        rw [List.length_take]; omega
      have hr1 : (a.drop ((flmBest a b).1 + (flmBest a b).2.2)).length
          = a.length - ((flmBest a b).1 + (flmBest a b).2.2) := List.length_drop _ _
      have hr2 : (b.drop ((flmBest a b).2.1 + (flmBest a b).2.2)).length
          = b.length - ((flmBest a b).2.1 + (flmBest a b).2.2) := List.length_drop _ _
      have ihl := ih (a.take (flmBest a b).1) (b.take (flmBest a b).2.1) (by omega)
      have ihr := ih (a.drop ((flmBest a b).1 + (flmBest a b).2.2))
        (b.drop ((flmBest a b).2.1 + (flmBest a b).2.2)) (by omega)
      rw [hl1, hl2] at ihl
      rw [hr1, hr2] at ihr
      omega

/-- The fuel is irrelevant as long as it exceeds the length of the first
sequence, so `matchingBlocksTotal`'s choice `a.length + 1` is exact. -/
theorem mbtFuel_congr : ∀ (f g : Nat) (a b : List Char), a.length < f → a.length < g →
    mbtFuel f a b = mbtFuel g a b := by
  intro f
  induction f with
  | zero =>
    intro g a b hf
    exact absurd hf (Nat.not_lt_zero _)
  | succ f2 ih =>
    intro g a b hf hg
    cases g with
    | zero => exact absurd hg (Nat.not_lt_zero _)
    | succ g2 =>
      simp only [mbtFuel]
      by_cases hk : (flmBest a b).2.2 = 0
      · rw [if_pos hk, if_pos hk]
      · rw [if_neg hk, if_neg hk]
        have hb := flmBest_bound a b
        have hk1 : 1 ≤ (flmBest a b).2.2 := Nat.one_le_iff_ne_zero.mpr hk
        have hl1 : (a.take (flmBest a b).1).length = (flmBest a b).1 := by
          rw [List.length_take]; omega
        have hr1 : (a.drop ((flmBest a b).1 + (flmBest a b).2.2)).length
            = a.length - ((flmBest a b).1 + (flmBest a b).2.2) := List.length_drop _ _
        rw [ih g2 _ _ (by omega) (by omega), ih g2 _ _ (by omega) (by omega)]

theorem matchingBlocksTotal_le (a b : List Char) :
    matchingBlocksTotal a b ≤ min a.length b.length :=
  mbtFuel_le _ a b (Nat.lt_succ_self _)

theorem sm_ratio_le_one (a b : String) : sm_ratio a b ≤ 1 := by
  simp only [sm_ratio]
  by_cases h : a.data.length + b.data.length = 0
  · rw [if_pos h]
  · rw [if_neg h]
    have hM := matchingBlocksTotal_le a.data b.data
    have h2 : 2 * matchingBlocksTotal a.data b.data ≤ a.data.length + b.data.length := by
      omega
    have hpos : (0 : ℚ) < ((a.data.length + b.data.length : Nat) : ℚ) := by
      exact_mod_cast Nat.pos_of_ne_zero h
    rw [div_le_one (by push_cast at hpos ⊢; exact hpos)]
    push_cast
    exact_mod_cast h2

/-- `roundHalfEven` returns the floor or the floor plus one. -/
theorem roundHalfEven_eq_floor_or (x : ℚ) :
    roundHalfEven x = ⌊x⌋ ∨ roundHalfEven x = ⌊x⌋ + 1 := by
  unfold roundHalfEven
  dsimp only
  split
  · exact Or.inl rfl
  · split
    · exact Or.inr rfl
    · split
      · exact Or.inl rfl
      · exact Or.inr rfl

theorem roundHalfEven_nonneg {x : ℚ} (h : 0 ≤ x) : 0 ≤ roundHalfEven x := by
  have hf : (0 : ℤ) ≤ ⌊x⌋ := Int.le_floor.mpr (by exact_mod_cast h)
  rcases roundHalfEven_eq_floor_or x with he | he <;> omega

theorem roundHalfEven_le {x : ℚ} {n : ℤ} (h : x ≤ (n : ℚ)) : roundHalfEven x ≤ n := by
  have hf : ⌊x⌋ ≤ n := by
    have h2 : ⌊x⌋ ≤ ⌊(n : ℚ)⌋ := Int.floor_le_floor h
    rwa [Int.floor_intCast] at h2
  unfold roundHalfEven
  dsimp only
  split
  · exact hf
  · rename_i hr1
    have hlt : ⌊x⌋ < n := by
      by_contra hcon
      have hfn : ⌊x⌋ = n := le_antisymm hf (by omega)
      have hxf : x - (⌊x⌋ : ℚ) ≤ 0 := by
        rw [hfn]
        linarith [Int.floor_le x, hfn ▸ Int.floor_le x]
      exact hr1 (by linarith)
    split
    · omega
    · split
      · exact hf
      · omega

theorem roundHalfEven_pos {x : ℚ} (h : 1/2 < x) : 1 ≤ roundHalfEven x := by
  have hx0 : (0 : ℚ) ≤ x := by linarith
  have hge : (0 : ℤ) ≤ ⌊x⌋ := Int.le_floor.mpr (by exact_mod_cast hx0)
  by_cases hf : 1 ≤ ⌊x⌋
  · rcases roundHalfEven_eq_floor_or x with he | he <;> omega
  · have hf0 : ⌊x⌋ = 0 := by omega
    unfold roundHalfEven
    dsimp only
    rw [hf0]
    have hr : ¬(x - ((0 : ℤ) : ℚ) < 1/2) := by
      push_cast
      linarith
    have hr2 : (1 : ℚ)/2 < x - ((0 : ℤ) : ℚ) := by
      push_cast
      linarith
    rw [if_neg hr, if_pos hr2]
    omega

theorem pyRound3_nonneg {x : ℚ} (h : 0 ≤ x) : 0 ≤ pyRound3 x := by
  unfold pyRound3
  have h1 : (0 : ℤ) ≤ roundHalfEven (x * 1000) := roundHalfEven_nonneg (by linarith)
  have h2 : (0 : ℚ) ≤ (roundHalfEven (x * 1000) : ℚ) := by exact_mod_cast h1
  positivity

theorem pyRound3_le_one {x : ℚ} (h : x ≤ 1) : pyRound3 x ≤ 1 := by
  unfold pyRound3
  have h1 : roundHalfEven (x * 1000) ≤ (1000 : ℤ) := roundHalfEven_le (by push_cast; linarith)
  have h2 : (roundHalfEven (x * 1000) : ℚ) ≤ 1000 := by exact_mod_cast h1
  rw [div_le_one (by norm_num)]
  exact h2

theorem pyRound3_pos {x : ℚ} (h : 1/2000 < x) : 0 < pyRound3 x := by
  unfold pyRound3
  have h1 : (1 : ℤ) ≤ roundHalfEven (x * 1000) := roundHalfEven_pos (by linarith)
  have h2 : (1 : ℚ) ≤ (roundHalfEven (x * 1000) : ℚ) := by exact_mod_cast h1
  positivity

/-! ### Helper lemmas: the `set_project` aggregation loops -/

/-- Access into the insertion-ordered histogram. -/
def lookupNat (m : List (String × Nat)) (t : String) : Nat :=
  (m.lookup t).getD 0

theorem lookupNat_histAdd (m : List (String × Nat)) (k t : String) :
    lookupNat (histAdd m k) t = lookupNat m t + (if k = t then 1 else 0) := by
  induction m with
  | nil =>
    simp only [histAdd, lookupNat, List.lookup]
    by_cases h : k = t
    · subst h; simp
    · have h2 : (t == k) = false := beq_false_of_ne (fun hh => h hh.symm)
      simp [h2, h]
  | cons kv rest ih =>
    obtain ⟨q, n⟩ := kv
    simp only [histAdd]
    by_cases hqk : q = k
    · rw [if_pos hqk]
      subst hqk
      by_cases hqt : q = t
      · subst hqt
        simp [lookupNat, List.lookup]
      · have h2 : (t == q) = false := beq_false_of_ne (fun hh => hqt hh.symm)
        simp [lookupNat, List.lookup, h2, hqt]
    · rw [if_neg hqk]
      by_cases hqt : q = t
      · have hkt : ¬ k = t := fun hh => hqk (hqt.trans hh.symm)
        subst hqt
        simp [lookupNat, List.lookup, hkt]
      · have h2 : (t == q) = false := beq_false_of_ne (fun hh => hqt hh.symm)
        simp only [lookupNat, List.lookup, h2]
        exact ih

/-- The histogram loop counts records by `memory_type`. -/
theorem lookupNat_byTypeFold_go :
    ∀ (l : List Point) (acc : List (String × Nat)) (t : String),
    lookupNat (l.foldl (fun m pt => histAdd m pt.payload.memory_type) acc) t
      = lookupNat acc t + l.countP (fun pt => pt.payload.memory_type == t) := by
  intro l
  induction l with
  | nil => simp
  | cons pt rest ih =>
    intro acc t
    simp only [List.foldl_cons, List.countP_cons]
    rw [ih, lookupNat_histAdd]
    by_cases h : pt.payload.memory_type = t
    · simp [h]
      omega
    · simp [h]

theorem lookupNat_byTypeFold (l : List Point) (t : String) :
    lookupNat (byTypeFold l) t = l.countP (fun pt => pt.payload.memory_type == t) := by
  rw [byTypeFold, lookupNat_byTypeFold_go]
  simp [lookupNat, List.lookup]

theorem lastUpdatedFold_go :
    ∀ (l : List Point), (∀ pt ∈ l, pt.payload.updated_at ≠ "") → ∀ (a : String),
    ∃ m, l.foldl (fun acc pt =>
        if pt.payload.updated_at ≠ "" then
          match acc with
          | none => some pt.payload.updated_at
          | some w => if w < pt.payload.updated_at then some pt.payload.updated_at else acc
        else acc) (some a) = some m
      ∧ (m = a ∨ m ∈ l.map (fun pt => pt.payload.updated_at))
      ∧ a ≤ m
      ∧ ∀ x ∈ l.map (fun pt => pt.payload.updated_at), x ≤ m := by
  intro l
  induction l with
  | nil =>
    intro _ a
    exact ⟨a, rfl, Or.inl rfl, le_refl a, by simp⟩
  | cons pt rest ih =>
    intro hupd a
    have hpt : pt.payload.updated_at ≠ "" := hupd pt (List.mem_cons_self pt rest)
    have hrest : ∀ q ∈ rest, q.payload.updated_at ≠ "" :=
      fun q hq => hupd q (List.mem_cons_of_mem pt hq)
    simp only [List.foldl_cons, if_pos hpt]
    by_cases hlt : a < pt.payload.updated_at
    · rw [if_pos hlt]
      obtain ⟨m, hm, hmem, hle, hall⟩ := ih hrest pt.payload.updated_at
      refine ⟨m, hm, ?_, ?_, ?_⟩
      · rcases hmem with rfl | hmem
        · exact Or.inr (by simp)
        · exact Or.inr (by simp [hmem])
      · exact le_trans (le_of_lt hlt) hle
      · intro x hx
        rw [List.map_cons] at hx
        rcases List.mem_cons.mp hx with rfl | hx2
        · exact hle
        · exact hall x hx2
    · rw [if_neg hlt]
      obtain ⟨m, hm, hmem, hle, hall⟩ := ih hrest a
      refine ⟨m, hm, ?_, hle, ?_⟩
      · rcases hmem with rfl | hmem
        · exact Or.inl rfl
        · exact Or.inr (by simp [hmem])
      · intro x hx
        rw [List.map_cons] at hx
        rcases List.mem_cons.mp hx with rfl | hx2
        · exact le_trans (le_of_not_lt hlt) hle
        · exact hall x hx2

/-- The `last_updated` loop computes the maximum `updated_at` of a
non-empty record list (all timestamps truthy). -/
theorem lastUpdatedFold_max (l : List Point) (hne : l ≠ [])
    (hupd : ∀ pt ∈ l, pt.payload.updated_at ≠ "") :
    ∃ m, lastUpdatedFold l = some m
      ∧ m ∈ l.map (fun pt => pt.payload.updated_at)
      ∧ ∀ x ∈ l.map (fun pt => pt.payload.updated_at), x ≤ m := by
  cases l with
  | nil => exact absurd rfl hne
  | cons pt rest =>
    have hpt : pt.payload.updated_at ≠ "" := hupd pt (List.mem_cons_self pt rest)
    have hrest : ∀ q ∈ rest, q.payload.updated_at ≠ "" :=
      fun q hq => hupd q (List.mem_cons_of_mem pt hq)
    obtain ⟨m, hm, hmem, hle, hall⟩ := lastUpdatedFold_go rest hrest pt.payload.updated_at
    refine ⟨m, ?_, ?_, ?_⟩
    · rw [lastUpdatedFold, List.foldl_cons, if_pos hpt]
      exact hm
    · rcases hmem with rfl | hmem
      · simp
      · simp [hmem]
    · intro x hx
      rw [List.map_cons] at hx
      rcases List.mem_cons.mp hx with rfl | hx2
      · exact hle
      · exact hall x hx2

/-- The facts every claim needs about a `build_filter` result: the user
condition always holds, the deleted-exclusion holds unless opted out, and
each truthy optional parameter pins its field. -/
theorem condsHold_build_filter {u : String} {sc pr : Option String} {mt : MTArg}
    {ti en : Option String} {incl : Bool} {p : Payload}
    (h : condsHold (build_filter u sc pr mt ti en incl) p = true) :
    p.user = u
      ∧ (incl = false → p.deleted = false)
      ∧ (∀ v, sc = some v → v ≠ "" → p.scope = v)
      ∧ (∀ v, pr = some v → v ≠ "" → p.project = some v) := by
  unfold build_filter at h
  simp only [condsHold_append, Bool.and_eq_true] at h
  obtain ⟨⟨⟨⟨⟨⟨huser, hdel⟩, hsc⟩, hpr⟩, _⟩, _⟩, _⟩ := h
  refine ⟨?_, ?_, ?_, ?_⟩
  · simpa [condsHold, Cond.holds] using huser
  · intro hincl
    subst hincl
    simpa [condsHold, Cond.holds] using hdel
  · intro v hv hne
    subst hv
    simp only [optCond, if_neg hne] at hsc
    simpa [condsHold, Cond.holds] using hsc
  · intro v hv hne
    subst hv
    simp only [optCond, if_neg hne] at hpr
    simpa [condsHold, Cond.holds] using hpr

/-! ### Helper lemmas: provenance of read-path results -/

/-- With unique ids, two stored points with the same id are the same. -/
theorem eq_of_mem_nodup_id {s : Store} {p q : Point} (hnd : (s.map Point.id).Nodup)
    (hp : p ∈ s) (hq : q ∈ s) (hid : p.id = q.id) : p = q := by
  induction s with
  | nil => cases hp
  | cons x rest ih =>
    rw [List.map_cons, List.nodup_cons] at hnd
    rcases List.mem_cons.mp hp with rfl | hp2
    · rcases List.mem_cons.mp hq with rfl | hq2
      · rfl
      · exact absurd (hid ▸ List.mem_map_of_mem Point.id hq2) hnd.1
    · rcases List.mem_cons.mp hq with rfl | hq2
      · exact absurd (hid ▸ List.mem_map_of_mem Point.id hp2) hnd.1
      · exact ih hnd.2 hp2 hq2

theorem mem_search_tool {embed : String → Nat} {sim : Nat → Nat → ℚ} {u query : String}
    {s : Store} {r : SearchItem} (h : r ∈ search_tool embed sim u query s) :
    ∃ q, q ∈ s ∧ r.id = q.id ∧ q.payload.user = u ∧ q.payload.deleted = false := by
  simp only [search_tool] at h
  rcases List.mem_map.mp h with ⟨sp, hsp, heq⟩
  obtain ⟨hmem, hcond, _⟩ := mem_qquery hsp
  obtain ⟨huser, hdel, _, _⟩ := condsHold_build_filter hcond
  subst heq
  exact ⟨sp.pt, hmem, rfl, huser, hdel rfl⟩

theorem mem_resolve_related {u : String} {s : Store} {p : Payload} {rm : RelatedMemory}
    (h : rm ∈ resolve_related u s p) :
    ∃ relPt, qretrieve s rm.id = some relPt ∧ relPt.payload.user = u
      ∧ rm.text = relPt.payload.text := by
  rcases List.mem_filterMap.mp h with ⟨rel_id, hrel, hf⟩
  cases hq : qretrieve s rel_id with
  | none => rw [hq] at hf; cases hf
  | some relPt =>
    rw [hq] at hf
    dsimp only at hf
    by_cases hu : (relPt.payload.user == u) = true
    · rw [if_pos hu] at hf
      obtain rfl := Option.some.inj hf
      exact ⟨relPt, hq, by simpa using hu, rfl⟩
    · rw [if_neg hu] at hf
      cases hf

theorem mem_retrieve_context {embed : String → Nat} {sim : Nat → Nat → ℚ} {u : String}
    {a : RetrieveArgs} {s : Store} {m : ContextMemory}
    (hm : m ∈ retrieve_context_tool embed sim u a s) :
    ∃ q, q ∈ s ∧ m.id = q.id ∧ m.text = q.payload.text
      ∧ m.score = sim (embed a.query) q.vec
      ∧ q.payload.user = u ∧ q.payload.deleted = false
      ∧ ((truthy a.project ∧ truthy a.scope = false) →
          q.payload.scope = "global" ∨ q.payload.project = a.project)
      ∧ m.related_memories
          = (if a.include_related then resolve_related u s q.payload else []) := by
  simp only [retrieve_context_tool] at hm
  rcases List.mem_map.mp hm with ⟨r, hr, heq⟩
  obtain ⟨hres, _⟩ := List.mem_filter.mp hr
  subst heq
  by_cases hc : (truthy a.project = true) ∧ truthy a.scope = false
  · rw [if_pos hc] at hres
    have h1 := (pysortDesc_perm (fun r : ScoredPoint => r.score) _).mem_iff.mp
      (List.take_subset _ _ hres)
    rcases List.mem_append.mp h1 with hg | hp
    · obtain ⟨hmem, hcond, hscore⟩ := mem_qquery hg
      obtain ⟨huser, hdel, hsc, _⟩ := condsHold_build_filter hcond
      exact ⟨r.pt, hmem, rfl, rfl, hscore, huser, hdel rfl,
        fun _ => Or.inl (hsc "global" rfl (by decide)), rfl⟩
    · obtain ⟨hmem, hcond, hscore⟩ := mem_qquery hp
      obtain ⟨huser, hdel, _, hpr⟩ := condsHold_build_filter hcond
      refine ⟨r.pt, hmem, rfl, rfl, hscore, huser, hdel rfl, fun _ => Or.inr ?_, rfl⟩
      cases ha : a.project with
      | none => rw [ha] at hc; simp [truthy] at hc
      | some v =>
        have hv : v ≠ "" := by
          have h2 := hc.1
          rw [ha] at h2
          simpa [truthy] using h2
        exact hpr v ha hv
  · rw [if_neg hc] at hres
    obtain ⟨hmem, hcond, hscore⟩ := mem_qquery hres
    obtain ⟨huser, hdel, _, _⟩ := condsHold_build_filter hcond
    exact ⟨r.pt, hmem, rfl, rfl, hscore, huser, hdel rfl,
      fun hcc => absurd hcc hc, rfl⟩

/-- `updEntity` never changes the aggregate's name. -/
theorem updEntity_name (e : EntityInfo) (p : Payload) : (updEntity e p).name = e.name := by
  unfold updEntity
  dsimp only
  split <;> split <;> rfl

theorem mem_list_entities {u : String} {sc pr : Option String} {mt : MTArg} {s : Store}
    {e : EntityInfo} (h : e ∈ (list_entities_tool u sc pr mt s).entities) :
    ∃ q, q ∈ s ∧ q.payload.user = u ∧ q.payload.deleted = false
      ∧ e.name = q.payload.entity := by
  simp only [list_entities_tool] at h
  rcases List.mem_map.mp h with ⟨kv, hkv, heq⟩
  subst heq
  have hinv : ∀ kv2 ∈ (qscroll s (build_filter u sc pr mt none none false) 10000).foldl
      (fun m pt =>
        if pt.payload.entity = "" then m
        else
          let m := if (m.lookup pt.payload.entity).isNone
            then m ++ [(pt.payload.entity,
              ({ name := pt.payload.entity, scope := pt.payload.scope,
                 project := pt.payload.project, memory_count := 0,
                 first_seen := pt.payload.created_at,
                 last_updated := pt.payload.updated_at } : EntityInfo))]
            else m
          assocUpdate m pt.payload.entity (fun e => updEntity e pt.payload)) [],
      ∃ q, q ∈ qscroll s (build_filter u sc pr mt none none false) 10000
        ∧ kv2.2.name = q.payload.entity := by
    apply foldl_invariant (fun m : List (String × EntityInfo) => ∀ kv2 ∈ m,
      ∃ q, q ∈ qscroll s (build_filter u sc pr mt none none false) 10000
        ∧ kv2.2.name = q.payload.entity)
    · intro kv2 hkv2
      cases hkv2
    · intro acc pt hpt hacc kv2 hkv2
      by_cases hent : pt.payload.entity = ""
      · rw [if_pos hent] at hkv2
        exact hacc kv2 hkv2
      · rw [if_neg hent] at hkv2
        dsimp only at hkv2
        rcases List.mem_map.mp hkv2 with ⟨kv0, hkv0, heq0⟩
        have hname : kv2.2.name = kv0.2.name := by
          rw [← heq0]
          by_cases hk : kv0.1 = pt.payload.entity
          · rw [if_pos hk]
            exact updEntity_name kv0.2 pt.payload
          · rw [if_neg hk]
        by_cases hfresh : ((acc.lookup pt.payload.entity).isNone : Bool) = true
        · rw [if_pos hfresh] at hkv0
          rcases List.mem_append.mp hkv0 with hold | hnew
          · obtain ⟨q, hq, hq2⟩ := hacc kv0 hold
            exact ⟨q, hq, hname.trans hq2⟩
          · have hkv00 : kv0 = (pt.payload.entity,
                ({ name := pt.payload.entity, scope := pt.payload.scope,
                   project := pt.payload.project, memory_count := 0,
                   first_seen := pt.payload.created_at,
                   last_updated := pt.payload.updated_at } : EntityInfo)) := by
              simpa using hnew
            refine ⟨pt, hpt, ?_⟩
            rw [hname, hkv00]
        · rw [if_neg hfresh] at hkv0
          obtain ⟨q, hq, hq2⟩ := hacc kv0 hkv0
          exact ⟨q, hq, hname.trans hq2⟩
  obtain ⟨q, hq, hq2⟩ := hinv kv hkv
  obtain ⟨hmem, hcond⟩ := mem_qscroll hq
  obtain ⟨huser, hdel, _, _⟩ := condsHold_build_filter hcond
  exact ⟨q, hmem, huser, hdel rfl, hq2⟩

theorem mem_search_entities_set {u : String} {scf : Option String} {s : Store}
    {kv : String × String × Option String} (h : kv ∈ search_entities_set u scf s) :
    ∃ q, q ∈ s ∧ q.payload.user = u ∧ q.payload.deleted = false
      ∧ kv.1 = q.payload.entity := by
  simp only [search_entities_set] at h
  have hinv : ∀ (F : List Cond), ∀ kv2 ∈ (qscroll s F 10000).foldl
      (fun m pt =>
        if pt.payload.entity ≠ "" ∧ (m.lookup pt.payload.entity).isNone
        then m ++ [(pt.payload.entity, (pt.payload.scope, pt.payload.project))]
        else m) [],
      ∃ q, q ∈ qscroll s F 10000 ∧ kv2.1 = q.payload.entity := by
    intro F
    apply foldl_invariant (fun m : List (String × String × Option String) => ∀ kv2 ∈ m,
      ∃ q, q ∈ qscroll s F 10000 ∧ kv2.1 = q.payload.entity)
    · intro kv2 hkv2
      cases hkv2
    · intro acc pt hpt hacc kv2 hkv2
      by_cases hent : pt.payload.entity ≠ "" ∧ ((acc.lookup pt.payload.entity).isNone : Bool) = true
      · rw [if_pos hent] at hkv2
        rcases List.mem_append.mp hkv2 with hold | hnew
        · exact hacc kv2 hold
        · have hkv20 : kv2 = (pt.payload.entity, (pt.payload.scope, pt.payload.project)) := by
            simpa using hnew
          exact ⟨pt, hpt, by rw [hkv20]⟩
      · rw [if_neg hent] at hkv2
        exact hacc kv2 hkv2
  by_cases hscf : (truthy scf : Prop)
  · rw [if_pos hscf] at h
    obtain ⟨q, hq, hq2⟩ := hinv _ kv h
    obtain ⟨hmem, hcond⟩ := mem_qscroll hq
    obtain ⟨huser, hdel, _, _⟩ := condsHold_build_filter hcond
    exact ⟨q, hmem, huser, hdel rfl, hq2⟩
  · rw [if_neg hscf] at h
    obtain ⟨q, hq, hq2⟩ := hinv _ kv h
    obtain ⟨hmem, hcond⟩ := mem_qscroll hq
    obtain ⟨huser, hdel, _, _⟩ := condsHold_build_filter hcond
    exact ⟨q, hmem, huser, hdel rfl, hq2⟩

theorem mem_search_entities_matches {u query : String} {scf : Option String} {s : Store}
    {m : EntityMatch} (h : m ∈ search_entities_matches u query scf s) :
    ∃ q, q ∈ s ∧ q.payload.user = u ∧ q.payload.deleted = false
      ∧ m.entity = q.payload.entity
      ∧ m.score = pyRound3 (sm_ratio (pyLower query) (pyLower q.payload.entity))
      ∧ 0 < sm_ratio (pyLower query) (pyLower q.payload.entity) := by
  simp only [search_entities_matches] at h
  rcases List.mem_filterMap.mp h with ⟨kv, hkv, hf⟩
  by_cases hsc : 0 < sm_ratio (pyLower query) (pyLower kv.1)
  · rw [if_pos hsc] at hf
    obtain rfl := Option.some.inj hf
    obtain ⟨q, hq, hu, hd, hent⟩ := mem_search_entities_set hkv
    refine ⟨q, hq, hu, hd, hent, by rw [← hent], ?_⟩
    rw [← hent]
    exact hsc
  · rw [if_neg hsc] at hf
    cases hf

theorem mem_search_entities_tool {u query : String} {scf : Option String} {lim : Nat}
    {s : Store} {m : EntityMatch} (h : m ∈ search_entities_tool u query scf lim s) :
    m ∈ search_entities_matches u query scf s := by
  simp only [search_entities_tool] at h
  exact (pysortDesc_perm (fun m : EntityMatch => m.score) _).mem_iff.mp
    (List.take_subset _ _ h)

/-! ### Helper lemmas: upsert retrieval and the project scan -/

theorem find?_append_none {α : Type} (p : α → Bool) (l1 l2 : List α)
    (h : l1.find? p = none) : (l1 ++ l2).find? p = l2.find? p := by
  induction l1 with
  | nil => rfl
  | cons x xs ih =>
    by_cases hx : p x = true
    · simp only [List.find?, hx] at h
      simp at h
    · have hx2 : p x = false := by simpa using hx
      simp only [List.find?, hx2] at h
      simp only [List.cons_append, List.find?, hx2]
      exact ih h

theorem qretrieve_qupsert (s : Store) (pt : Point) :
    qretrieve (qupsert s pt) pt.id = some pt := by
  unfold qupsert qretrieve
  by_cases h : s.any (fun q => q.id == pt.id) = true
  · rw [if_pos h]
    induction s with
    | nil => simp at h
    | cons q rest ih =>
      rw [List.any_cons, Bool.or_eq_true] at h
      rw [List.map_cons]
      by_cases hq : (q.id == pt.id) = true
      · rw [if_pos hq]
        exact List.find?_cons_of_pos _ (by simp)
      · rw [if_neg hq]
        have hq2 : (q.id == pt.id) = false := by simpa using hq
        simp only [List.find?, hq2]
        exact ih (h.resolve_left hq)
  · rw [if_neg h]
    have hnone : s.find? (fun q => q.id == pt.id) = none := by
      rw [List.find?_eq_none]
      intro a ha hcontra
      exact h (List.any_eq_true.mpr ⟨a, ha, hcontra⟩)
    rw [find?_append_none _ _ _ hnone]
    simp [List.find?]

theorem condsHold_project_scan (u project : String) (hproj : project ≠ "") (p : Payload) :
    condsHold (build_filter u none (some project) MTArg.noneArg none none false) p
      = (p.user == u && p.deleted == false && p.project == some project) := by
  simp [build_filter, condsHold, optCond, Cond.holds, hproj, Bool.and_assoc]

/-- Under the 1000-record scroll cap, the `set_project` existence scan is
exactly the caller's visible records for the project. -/
theorem qscroll_project_scan (u project : String) (s : Store) (hproj : project ≠ "")
    (hcap : (s.filter (fun pt => pt.payload.user == u && pt.payload.deleted == false
        && pt.payload.project == some project)).length ≤ 1000) :
    qscroll s (build_filter u none (some project) MTArg.noneArg none none false) 1000
      = s.filter (fun pt => pt.payload.user == u && pt.payload.deleted == false
          && pt.payload.project == some project) := by
  unfold qscroll
  rw [List.filter_congr (fun pt _ => condsHold_project_scan u project hproj pt.payload)]
  exact List.take_of_length_le hcap

/-! ## Witness fixtures -/

/-- Payload builder for the concrete witnesses below. -/
def wPayload (user entity text : String) (deleted : Bool) (project : Option String)
    (scope : String) : Payload :=
  { user := user, text := text, memory_type := "episodic", scope := scope, entity := entity,
    project := project, task_id := none, related_to := [], relation_types := [], tags := [],
    created_at := "2024-01-01T00:00:00", updated_at := "2024-01-02T00:00:00",
    status := none, priority := none, deleted := deleted, deleted_at := none }

/-- Witness embedding: every text maps to vector handle 0. -/
def wEmbed : String → Nat := fun _ => 0

/-- Witness similarity: the score of a stored vector is its handle. -/
def wSim : Nat → Nat → ℚ := fun _ v => (v : ℚ)

/-- Witness uuid5. -/
def wUuid : String → String := fun seed => "uuid-" ++ seed

/-! ## The claims -/

/-- The payload update performed by the `delete_memory` branch. -/
def softDeletedPayload (p : Payload) (now : String) : Payload :=
  { p with deleted := true, deleted_at := some now, updated_at := now }

/-- The stored point after the `delete_memory` write. -/
def softDeletedPoint (pt : Point) (now : String) : Point :=
  { pt with payload := softDeletedPayload pt.payload now }

/-- Shared helper: the already-deleted branch of `delete_memory`. -/
theorem delete_tool_already (now u memory_id : String) (s : Store) (pt : Point)
    (hret : qretrieve s memory_id = some pt)
    (howner : pt.payload.user = u)
    (hdel : pt.payload.deleted = true) :
    delete_memory_tool now u memory_id s = (DeleteResult.alreadyDeleted memory_id, s) := by
  unfold delete_memory_tool
  rw [hret]
  dsimp only
  rw [if_neg (fun hc => hc howner), if_pos hdel]

/-- C10: `delete_memory` invoked by the owner on a record that already has
`deleted = true` returns the `already_deleted` status without issuing any
write, so `deleted_at`, `updated_at` and every other field of the record
are exactly the same after the call as before it (the whole store is
returned unchanged). -/
theorem delete_memory_already_deleted_frame
    (now u memory_id : String) (s : Store) (pt : Point)
    (hret : qretrieve s memory_id = some pt)
    (howner : pt.payload.user = u)
    (hdel : pt.payload.deleted = true) :
    delete_memory_tool now u memory_id s = (DeleteResult.alreadyDeleted memory_id, s) :=
  delete_tool_already now u memory_id s pt hret howner hdel

def wPt10 : Point := ⟨"m1", 0, wPayload "alice" "E" "t" true none "global"⟩

def wStore10 : Store := [wPt10]

theorem delete_memory_already_deleted_frame_witness :
    delete_memory_tool "2024-02-01T00:00:00" "alice" "m1" wStore10
      = (DeleteResult.alreadyDeleted "m1", wStore10) :=
  delete_memory_already_deleted_frame "2024-02-01T00:00:00" "alice" "m1" wStore10 wPt10
    (by decide) (by decide) (by decide)

/-- C7: the first `soft_delete` on an existing owned non-deleted record
sets `deleted = true`, `deleted_at` and `updated_at` and returns status
`deleted`; a second `soft_delete` on the same id returns status
`already_deleted` as a success (leaving the store untouched), and the
record remains in the store and matches the `include_deleted = true`
filter, so it never disappears from opted-in reads. -/
theorem soft_delete_idempotent
    (now1 now2 u memory_id : String) (s : Store) (pt : Point)
    (hret : qretrieve s memory_id = some pt)
    (howner : pt.payload.user = u)
    (hdel : pt.payload.deleted = false) :
    (delete_memory_tool now1 u memory_id s).1 = DeleteResult.deleted memory_id now1
    ∧ qretrieve (delete_memory_tool now1 u memory_id s).2 memory_id
        = some (softDeletedPoint pt now1)
    ∧ delete_memory_tool now2 u memory_id (delete_memory_tool now1 u memory_id s).2
        = (DeleteResult.alreadyDeleted memory_id, (delete_memory_tool now1 u memory_id s).2)
    ∧ softDeletedPoint pt now1 ∈ (delete_memory_tool now1 u memory_id s).2
    ∧ condsHold (build_filter u none none MTArg.noneArg none none true)
        (softDeletedPayload pt.payload now1) = true := by
  have hrun : delete_memory_tool now1 u memory_id s
      = (DeleteResult.deleted memory_id now1, qset_payload s memory_id
          (softDeletedPayload pt.payload now1)) := by
    unfold delete_memory_tool
    rw [hret]
    dsimp only
    rw [if_neg (fun hc => hc howner), if_neg (by rw [hdel]; exact Bool.false_ne_true)]
    rfl
  have hret2 : qretrieve (delete_memory_tool now1 u memory_id s).2 memory_id
      = some (softDeletedPoint pt now1) := by
    rw [hrun]
    exact qretrieve_qset_payload hret
  refine ⟨by rw [hrun], hret2, ?_, ?_, ?_⟩
  · exact delete_tool_already now2 u memory_id _ (softDeletedPoint pt now1) hret2
      (by simpa [softDeletedPoint, softDeletedPayload] using howner)
      (by simp [softDeletedPoint, softDeletedPayload])
  · have hretf : s.find? (fun q => q.id == memory_id) = some pt := hret
    have hid0 := List.find?_some hretf
    have hid : (pt.id == memory_id) = true := hid0
    have hmem : pt ∈ s := List.mem_of_find?_eq_some hretf
    rw [hrun]
    dsimp only
    unfold qset_payload
    have himg : (if pt.id == memory_id
        then { pt with payload := softDeletedPayload pt.payload now1 } else pt)
        = softDeletedPoint pt now1 := by
      rw [if_pos hid]
      rfl
    exact himg ▸ List.mem_map_of_mem _ hmem
  · simp [build_filter, condsHold, optCond, Cond.holds, softDeletedPayload, howner]

def wPt7 : Point := ⟨"m1", 0, wPayload "alice" "E" "t" false none "global"⟩

def wStore7 : Store := [wPt7]

def wPt7d : Point := softDeletedPoint wPt7 "2024-03-01T00:00:00"

theorem soft_delete_idempotent_witness :
    (delete_memory_tool "2024-03-01T00:00:00" "alice" "m1" wStore7).1
        = DeleteResult.deleted "m1" "2024-03-01T00:00:00"
    ∧ qretrieve (delete_memory_tool "2024-03-01T00:00:00" "alice" "m1" wStore7).2 "m1"
        = some wPt7d
    ∧ delete_memory_tool "2024-03-02T00:00:00" "alice" "m1"
          (delete_memory_tool "2024-03-01T00:00:00" "alice" "m1" wStore7).2
        = (DeleteResult.alreadyDeleted "m1",
          (delete_memory_tool "2024-03-01T00:00:00" "alice" "m1" wStore7).2)
    ∧ wPt7d ∈ (delete_memory_tool "2024-03-01T00:00:00" "alice" "m1" wStore7).2
    ∧ condsHold (build_filter "alice" none none MTArg.noneArg none none true)
        wPt7d.payload = true :=
  soft_delete_idempotent "2024-03-01T00:00:00" "2024-03-02T00:00:00" "alice" "m1"
    wStore7 wPt7 (by decide) (by decide) (by decide)

def wStore3 : Store := [⟨"m1", 0, wPayload "alice" "E" "secret" false none "global"⟩]

/-- C3 counterexample: on a store holding a record `m1` owned by `alice`,
a fetch of `m1` by `bob` returns `"Error: Unauthorized"` while a fetch of
the absent id `m2` returns `"Error: Memory not found"` — the two results
differ, so the non-owner result is distinguishable from not-found. -/
theorem fetch_unauthorized_distinct_counterexample :
    fetch_tool "bob" "m1" wStore3 = "Error: Unauthorized"
      ∧ fetch_tool "bob" "m2" wStore3 = "Error: Memory not found"
      ∧ fetch_tool "bob" "m1" wStore3 ≠ fetch_tool "bob" "m2" wStore3 :=
  ⟨by decide, by decide, by decide⟩

/-- C3 (amended): a fetch of an existing record owned by a different user
always returns exactly `"Error: Unauthorized"` — no field of the record
is revealed — which is a distinct message from the not-found result
`"Error: Memory not found"`. -/
theorem fetch_unauthorized_amended (u mid : String) (s : Store) (pt : Point)
    (hret : qretrieve s mid = some pt) (hne : pt.payload.user ≠ u) :
    fetch_tool u mid s = "Error: Unauthorized"
      ∧ fetch_tool u mid s ≠ "Error: Memory not found" := by
  have h1 : fetch_tool u mid s = "Error: Unauthorized" := by
    unfold fetch_tool
    rw [hret]
    dsimp only
    rw [if_pos hne]
  refine ⟨h1, ?_⟩
  rw [h1]
  decide

theorem fetch_unauthorized_amended_witness :
    fetch_tool "bob" "m1" wStore3 = "Error: Unauthorized"
      ∧ fetch_tool "bob" "m1" wStore3 ≠ "Error: Memory not found" :=
  fetch_unauthorized_amended "bob" "m1" wStore3
    ⟨"m1", 0, wPayload "alice" "E" "secret" false none "global"⟩ (by decide) (by decide)

/-- C5: `store_memory` validates before persisting — scope `project` or
`task` without a truthy `project` is rejected with the project validation
error and the store is unchanged; scope `task` without a truthy `task_id`
is rejected with the task validation error and the store is unchanged;
when the required fields are present the call returns the new
deterministic id with status `stored` and the new store retrieves that id
as a record with exactly the built payload, in particular
`deleted = false`. -/
theorem store_memory_validation (embed : String → Nat) (uuid5 : String → String)
    (now u : String) (a : StoreArgs) (s : Store) :
    (((a.scope = "project" ∨ a.scope = "task") ∧ truthy a.project = false) →
      store_memory_tool embed uuid5 now u a s
        = (StoreResult.validationError
            "Error: project is required when scope is 'project' or 'task'", s))
    ∧ (¬((a.scope = "project" ∨ a.scope = "task") ∧ truthy a.project = false) →
        (a.scope = "task" ∧ truthy a.task_id = false) →
        store_memory_tool embed uuid5 now u a s
          = (StoreResult.validationError "Error: task_id is required when scope is 'task'", s))
    ∧ (¬((a.scope = "project" ∨ a.scope = "task") ∧ truthy a.project = false) →
        ¬(a.scope = "task" ∧ truthy a.task_id = false) →
        (store_memory_tool embed uuid5 now u a s).1
            = StoreResult.stored (generate_memory_id uuid5 a.entity now)
          ∧ qretrieve (store_memory_tool embed uuid5 now u a s).2
              (generate_memory_id uuid5 a.entity now)
            = some ⟨generate_memory_id uuid5 a.entity now, embed a.text,
                { user := u, text := a.text, memory_type := a.memory_type, scope := a.scope,
                  entity := a.entity, project := a.project, task_id := a.task_id,
                  related_to := a.related_to, relation_types := a.relation_types,
                  tags := a.tags, created_at := now, updated_at := now, status := a.status,
                  priority := a.priority, deleted := false, deleted_at := none }⟩) := by
  refine ⟨?_, ?_, ?_⟩
  · intro h1
    unfold store_memory_tool
    rw [if_pos h1]
  · intro h1 h2
    unfold store_memory_tool
    rw [if_neg h1, if_pos h2]
  · intro h1 h2
    unfold store_memory_tool
    rw [if_neg h1, if_neg h2]
    exact ⟨rfl, qretrieve_qupsert s _⟩

def wArgs5 : StoreArgs :=
  { text := "X", memory_type := "episodic", scope := "project", entity := "E",
    project := none, task_id := none, related_to := [], relation_types := [],
    tags := [], status := none, priority := none }

def wArgs5b : StoreArgs := { wArgs5 with project := some "P" }

theorem store_memory_validation_witness :
    (store_memory_tool wEmbed wUuid "T" "alice" wArgs5 []
        = (StoreResult.validationError
            "Error: project is required when scope is 'project' or 'task'", []))
    ∧ ((store_memory_tool wEmbed wUuid "T" "alice" wArgs5b []).1
        = StoreResult.stored (generate_memory_id wUuid "E" "T")) :=
  ⟨(store_memory_validation wEmbed wUuid "T" "alice" wArgs5 []).1 (by decide),
   ((store_memory_validation wEmbed wUuid "T" "alice" wArgs5b []).2.2
      (by decide) (by decide)).1⟩

/-- C6: when a trusted backend key is configured and the request's secret
header matches it (`hmac.compare_digest`; its constant-time aspect is a
timing property outside this embedding), the resolved identity is exactly
the `X-User-Id` header value, for any OAuth subject and any bearer token
among the headers; if the secret matches but `X-User-Id` is absent (or
empty, which Python treats as missing), the middleware answers with the
400 `missing_user_id` response — a distinct outcome from the 401
unauthorized ones. -/
theorem identity_gate_backend_key (tk : String) (r : HRequest) (oauth_subject : Option String)
    (htk : tk ≠ "")
    (hbk : hget r "x-backend-key" = some tk)
    (hexempt : ¬(pyUpper r.method = "OPTIONS" ∨ r.path ∈ EXEMPT_PATHS
        ∨ EXEMPT_PREFIXES.any (fun p => pyStartsWith r.path p) = true)) :
    (∀ uid, hget r "x-user-id" = some uid → uid ≠ "" →
        get_current_user (some tk) (some r) oauth_subject = some uid)
    ∧ (hget r "x-user-id" = none →
        get_current_user (some tk) (some r) oauth_subject = none
          ∧ dispatch (some tk) r = DispatchOutcome.badRequest)
    ∧ (hget r "x-user-id" = some "" →
        get_current_user (some tk) (some r) oauth_subject = none
          ∧ dispatch (some tk) r = DispatchOutcome.badRequest)
    ∧ DispatchOutcome.badRequest ≠ DispatchOutcome.unauthorizedEmpty := by
  refine ⟨?_, ?_, ?_, by decide⟩
  · intro uid huid hne
    unfold get_current_user
    dsimp only
    rw [if_pos htk, hbk]
    dsimp only
    rw [if_pos ⟨htk, rfl⟩, huid]
    dsimp only
    rw [if_neg hne]
  · intro huid
    constructor
    · unfold get_current_user
      dsimp only
      rw [if_pos htk, hbk]
      dsimp only
      rw [if_pos ⟨htk, rfl⟩, huid]
    · unfold dispatch
      rw [if_neg hexempt]
      dsimp only
      rw [if_pos htk, hbk]
      dsimp only
      rw [if_pos ⟨htk, rfl⟩, huid]
  · intro huid
    constructor
    · unfold get_current_user
      dsimp only
      rw [if_pos htk, hbk]
      dsimp only
      rw [if_pos ⟨htk, rfl⟩, huid]
      dsimp only
      rw [if_pos rfl]
    · unfold dispatch
      rw [if_neg hexempt]
      dsimp only
      rw [if_pos htk, hbk]
      dsimp only
      rw [if_pos ⟨htk, rfl⟩, huid]
      dsimp only
      rw [if_pos rfl]

def wReq6a : HRequest :=
  ⟨"POST", "/mcp",
    [("X-Backend-Key", "sek"), ("Authorization", "Bearer tok"), ("X-User-Id", "alice")]⟩

def wReq6b : HRequest :=
  ⟨"POST", "/mcp", [("X-Backend-Key", "sek"), ("Authorization", "Bearer tok")]⟩

theorem identity_gate_backend_key_witness :
    get_current_user (some "sek") (some wReq6a) (some "oauth-subject") = some "alice"
      ∧ dispatch (some "sek") wReq6b = DispatchOutcome.badRequest :=
  ⟨(identity_gate_backend_key "sek" wReq6a (some "oauth-subject")
      (by decide) (by decide) (by decide)).1 "alice" (by decide) (by decide),
   ((identity_gate_backend_key "sek" wReq6b (some "oauth-subject")
      (by decide) (by decide) (by decide)).2.1 (by decide)).2⟩

/-- Helper: a list with `isEmpty = false` has a member. -/
theorem exists_mem_of_not_isEmpty {α : Type} (l : List α) (h : ¬ l.isEmpty = true) :
    ∃ x, x ∈ l := by
  cases l with
  | nil => exact absurd rfl h
  | cons x xs => exact ⟨x, List.mem_cons_self x xs⟩

def wPt2 : Point := ⟨"m1", 0, wPayload "alice" "E" "deleted-secret" true none "global"⟩

def wStore2 : Store := [wPt2]

/-- C2 counterexample: `fetch` is one of the claim's read paths and takes
no `include_deleted` argument at all, yet on a store whose only record
`m1` is soft-deleted it returns that record's text instead of excluding
it — so not every read path excludes `deleted = true` records. -/
theorem soft_delete_read_exclusion_counterexample :
    qretrieve wStore2 "m1" = some wPt2
      ∧ wPt2.payload.deleted = true
      ∧ fetch_tool "alice" "m1" wStore2 = "deleted-secret" :=
  ⟨by decide, by decide, by decide⟩

/-- C2 (amended): every filter-based read path — `search`,
`retrieve_context`'s primary results, `list_entities`, `search_entities`,
and `set_project`'s existence scan — excludes `deleted = true` records
(these paths always build their filter with `include_deleted = false`;
no tool exposes the opt-in).  The id-based lookups — `fetch` and
`retrieve_context`'s related-memory resolution — do not exclude deleted
records. -/
theorem soft_delete_read_exclusion_amended
    (embed : String → Nat) (sim : Nat → Nat → ℚ) (uuid5 : String → String)
    (u : String) (s : Store) :
    (∀ query, ∀ r ∈ search_tool embed sim u query s,
        ∃ q, q ∈ s ∧ r.id = q.id ∧ q.payload.deleted = false)
    ∧ (∀ a : RetrieveArgs, ∀ m ∈ retrieve_context_tool embed sim u a s,
        ∃ q, q ∈ s ∧ m.id = q.id ∧ q.payload.deleted = false)
    ∧ (∀ sc pr mt, ∀ e ∈ (list_entities_tool u sc pr mt s).entities,
        ∃ q, q ∈ s ∧ e.name = q.payload.entity ∧ q.payload.deleted = false)
    ∧ (∀ query scf lim, ∀ m ∈ search_entities_tool u query scf lim s,
        ∃ q, q ∈ s ∧ m.entity = q.payload.entity ∧ q.payload.deleted = false)
    ∧ (∀ now project, project ≠ "" →
        (set_project_tool embed uuid5 now u project s).1.projExists = true →
        ∃ q, q ∈ s ∧ q.payload.deleted = false ∧ q.payload.project = some project) := by
  refine ⟨?_, ?_, ?_, ?_, ?_⟩
  · intro query r hr
    obtain ⟨q, hq, hid, _, hdel⟩ := mem_search_tool hr
    exact ⟨q, hq, hid, hdel⟩
  · intro a m hm
    obtain ⟨q, hq, hid, _, _, _, hdel, _, _⟩ := mem_retrieve_context hm
    exact ⟨q, hq, hid, hdel⟩
  · intro sc pr mt e he
    obtain ⟨q, hq, _, hdel, hname⟩ := mem_list_entities he
    exact ⟨q, hq, hname, hdel⟩
  · intro query scf lim m hm
    obtain ⟨q, hq, _, hdel, hent, _, _⟩ :=
      mem_search_entities_matches (mem_search_entities_tool hm)
    exact ⟨q, hq, hent, hdel⟩
  · intro now project hproj hex
    unfold set_project_tool at hex
    by_cases hres : (qscroll s
        (build_filter u none (some project) MTArg.noneArg none none false) 1000).isEmpty = true
    · rw [if_pos hres] at hex
      simp at hex
    · rw [if_neg hres] at hex
      obtain ⟨q, hq⟩ := exists_mem_of_not_isEmpty _ hres
      obtain ⟨hmem, hcond⟩ := mem_qscroll hq
      obtain ⟨_, hdel, _, hpr⟩ := condsHold_build_filter hcond
      exact ⟨q, hmem, hdel rfl, hpr project rfl hproj⟩

def wPt2b : Point := ⟨"m2", 0, wPayload "alice" "E" "visible" false (some "P") "project"⟩

def wStore2b : Store := [wPt2b]

theorem soft_delete_read_exclusion_amended_witness :
    ∃ q, q ∈ wStore2b ∧ q.payload.deleted = false ∧ q.payload.project = some "P" :=
  (soft_delete_read_exclusion_amended wEmbed wSim wUuid "alice" wStore2b).2.2.2.2
    "2024-05-01T00:00:00" "P" (by decide) (by decide)

/-- C4: for `retrieve_context` with a truthy `project` and no truthy
`scope`, the result is the union of the two underlying searches — one
pinned to `scope = "global"`, one pinned to the project, each capped at
`limit / 2` (integer division) — re-sorted by descending similarity score
and truncated to `limit`: the returned list holds at most `limit` items
and at most `2 * (limit / 2)` items (one fewer for odd limits), in
descending score order, and every item originates from a visible record
of the caller that is either global-scoped or tagged with the project. -/
theorem retrieve_context_hierarchical_merge
    (embed : String → Nat) (sim : Nat → Nat → ℚ) (u : String) (a : RetrieveArgs) (s : Store)
    (hproj : truthy a.project = true) (hscope : truthy a.scope = false) :
    (retrieve_context_tool embed sim u a s).length ≤ a.limit
    ∧ (retrieve_context_tool embed sim u a s).length ≤ 2 * (a.limit / 2)
    ∧ (retrieve_context_tool embed sim u a s).Pairwise
        (fun m1 m2 : ContextMemory => m2.score ≤ m1.score)
    ∧ ∀ m ∈ retrieve_context_tool embed sim u a s, ∃ q, q ∈ s
        ∧ m.id = q.id ∧ m.score = sim (embed a.query) q.vec
        ∧ q.payload.user = u ∧ q.payload.deleted = false
        ∧ (q.payload.scope = "global" ∨ q.payload.project = a.project) := by
  have hc : (truthy a.project = true) ∧ truthy a.scope = false := ⟨hproj, hscope⟩
  refine ⟨?_, ?_, ?_, ?_⟩
  · simp only [retrieve_context_tool, if_pos hc]
    rw [List.length_map]
    exact le_trans (List.length_filter_le _ _) (List.length_take_le _ _)
  · simp only [retrieve_context_tool, if_pos hc]
    rw [List.length_map]
    refine le_trans (List.length_filter_le _ _) ?_
    have htk : ∀ (l : List ScoredPoint), (l.take a.limit).length ≤ l.length := by
      intro l
      rw [List.length_take]
      exact min_le_right _ _
    refine le_trans (htk _) ?_
    rw [(pysortDesc_perm (fun r : ScoredPoint => r.score) _).length_eq, List.length_append]
    have h1 := length_qquery sim (embed a.query) s
      (build_filter u (some "global") none a.memory_type a.task_id none false) (a.limit / 2)
    have h2 := length_qquery sim (embed a.query) s
      (build_filter u none a.project a.memory_type a.task_id none false) (a.limit / 2)
    omega
  · simp only [retrieve_context_tool, if_pos hc]
    rw [List.pairwise_map]
    apply List.Pairwise.sublist ((List.filter_sublist _).trans (List.take_sublist _ _))
    exact pairwise_pysortDesc (fun r : ScoredPoint => r.score) _
  · intro m hm
    obtain ⟨q, hq, hid, _, hscore, huser, hdel, hdisj, _⟩ := mem_retrieve_context hm
    exact ⟨q, hq, hid, hscore, huser, hdel, hdisj hc⟩

def wArgs4 : RetrieveArgs :=
  { query := "q", scope := none, memory_type := .noneArg, project := some "P",
    task_id := none, include_related := true, limit := 10, score_threshold := 0 }

def wStore4 : Store :=
  [⟨"g1", 3, wPayload "alice" "E1" "gtext" false none "global"⟩,
   ⟨"p1", 5, wPayload "alice" "E2" "ptext" false (some "P") "project"⟩]

theorem retrieve_context_hierarchical_merge_witness :
    (retrieve_context_tool wEmbed wSim "alice" wArgs4 wStore4).length ≤ wArgs4.limit
    ∧ (retrieve_context_tool wEmbed wSim "alice" wArgs4 wStore4).length
        ≤ 2 * (wArgs4.limit / 2)
    ∧ (retrieve_context_tool wEmbed wSim "alice" wArgs4 wStore4).Pairwise
        (fun m1 m2 : ContextMemory => m2.score ≤ m1.score)
    ∧ ∀ m ∈ retrieve_context_tool wEmbed wSim "alice" wArgs4 wStore4, ∃ q, q ∈ wStore4
        ∧ m.id = q.id ∧ m.score = wSim (wEmbed wArgs4.query) q.vec
        ∧ q.payload.user = "alice" ∧ q.payload.deleted = false
        ∧ (q.payload.scope = "global" ∨ q.payload.project = wArgs4.project) :=
  retrieve_context_hierarchical_merge wEmbed wSim "alice" wArgs4 wStore4
    (by decide) (by decide)

def wStore8a : Store := [⟨"m1", 0, wPayload "u" "diet" "t" false none "global"⟩]

def wStore8b : Store := [⟨"m1", 0, wPayload "u" "tide" "t" false none "global"⟩]

/-- C8 counterexample: the scoring applied by `search_entities` is not
symmetric.  The concrete query `"tide"` against the entity label
`"diet"` scores `1/4`, while the query `"diet"` against the label
`"tide"` scores `1/2` (exactly as CPython's `SequenceMatcher` behaves on
this pair), and the stored `round(score, 3)` values `0.25` and `0.5`
differ as well; a symmetric longest-matching-block ratio would give the
same value both ways. -/
theorem search_entities_symmetric_counterexample :
    sm_ratio (pyLower "tide") (pyLower "diet") = 1/4
      ∧ sm_ratio (pyLower "diet") (pyLower "tide") = 1/2
      ∧ pyRound3 (sm_ratio (pyLower "tide") (pyLower "diet")) = 1/4
      ∧ pyRound3 (sm_ratio (pyLower "diet") (pyLower "tide")) = 1/2
      ∧ pyRound3 (sm_ratio (pyLower "tide") (pyLower "diet"))
          ≠ pyRound3 (sm_ratio (pyLower "diet") (pyLower "tide")) := by
  have hpl1 : pyLower "tide" = "tide" := by decide
  have hpl2 : pyLower "diet" = "diet" := by decide
  have hM1 : matchingBlocksTotal "tide".data "diet".data = 1 := by decide
  have hM2 : matchingBlocksTotal "diet".data "tide".data = 2 := by decide
  have hl1 : "tide".data.length + "diet".data.length = 8 := by decide
  have hl2 : "diet".data.length + "tide".data.length = 8 := by decide
  have h1 : sm_ratio (pyLower "tide") (pyLower "diet") = 1/4 := by
    rw [hpl1, hpl2]
    simp only [sm_ratio]
    rw [hM1, hl1]
    norm_num
  have h2 : sm_ratio (pyLower "diet") (pyLower "tide") = 1/2 := by
    rw [hpl1, hpl2]
    simp only [sm_ratio]
    rw [hM2, hl2]
    norm_num
  have hgrid : ∀ n : ℤ, pyRound3 ((n : ℚ) / 1000) = (n : ℚ) / 1000 := by
    intro n
    unfold pyRound3
    have he : ((n : ℚ) / 1000) * 1000 = ((n : ℤ) : ℚ) := by
      ring
    rw [he]
    have hf : roundHalfEven ((n : ℤ) : ℚ) = n := by
      unfold roundHalfEven
      dsimp only
      rw [Int.floor_intCast]
      rw [if_pos (by norm_num)]
    rw [hf]
  have hr1 : pyRound3 (sm_ratio (pyLower "tide") (pyLower "diet")) = 1/4 := by
    rw [h1]
    have h14 : (1 : ℚ)/4 = ((250 : ℤ) : ℚ) / 1000 := by norm_num
    rw [h14, hgrid]
  have hr2 : pyRound3 (sm_ratio (pyLower "diet") (pyLower "tide")) = 1/2 := by
    rw [h2]
    have h12 : (1 : ℚ)/2 = ((500 : ℤ) : ℚ) / 1000 := by norm_num
    rw [h12, hgrid]
  refine ⟨h1, h2, hr1, hr2, ?_⟩
  rw [hr1, hr2]
  norm_num

/-- C8 (amended): for every query, user and limit, `search_entities`
scores every distinct visible entity label against the query with the
longest-matching-block ratio (asymmetric in argument order: the query is
the first sequence, the lowercased label the second), excludes labels
whose raw ratio is zero, and stores, sorts on and returns
`round(score, 3)` of that ratio: the result holds at most `limit`
matches sorted by descending rounded score, ties — including distinct
raw ratios that round equal — broken by original enumeration order.
Every returned score lies in `[0, 1]`; it is the rounding of a strictly
positive raw ratio in `(0, 1]`, and is itself strictly positive whenever
the raw ratio exceeds `1/2000` (a raw ratio of at most `1/2000` rounds
to `0.0`, so `(0, 1]` does not hold of the rounded score in general).
When `limit` is large enough, every positive-raw-ratio label is
returned. -/
theorem search_entities_contract (u query : String) (scf : Option String) (lim : Nat)
    (s : Store) :
    (search_entities_tool u query scf lim s).length ≤ lim
    ∧ (∀ m ∈ search_entities_tool u query scf lim s,
        m.score = pyRound3 (sm_ratio (pyLower query) (pyLower m.entity))
          ∧ 0 < sm_ratio (pyLower query) (pyLower m.entity)
          ∧ sm_ratio (pyLower query) (pyLower m.entity) ≤ 1
          ∧ 0 ≤ m.score ∧ m.score ≤ 1
          ∧ (1/2000 < sm_ratio (pyLower query) (pyLower m.entity) → 0 < m.score)
          ∧ ∃ q, q ∈ s ∧ q.payload.user = u ∧ q.payload.deleted = false
              ∧ m.entity = q.payload.entity)
    ∧ (search_entities_tool u query scf lim s).Pairwise
        (fun m1 m2 : EntityMatch => m2.score ≤ m1.score)
    ∧ (∀ c : ℚ, ∃ t, ((search_entities_tool u query scf lim s).filter
          (fun m => m.score == c)) ++ t
        = (search_entities_matches u query scf s).filter (fun m => m.score == c))
    ∧ ((search_entities_matches u query scf s).length ≤ lim →
        ∀ m ∈ search_entities_matches u query scf s,
          m ∈ search_entities_tool u query scf lim s) := by
  refine ⟨?_, ?_, ?_, ?_, ?_⟩
  · simp only [search_entities_tool]
    exact List.length_take_le _ _
  · intro m hm
    obtain ⟨q, hq, hu, hd, hent, hscoreq, hpos⟩ :=
      mem_search_entities_matches (mem_search_entities_tool hm)
    have hratio : sm_ratio (pyLower query) (pyLower m.entity)
        = sm_ratio (pyLower query) (pyLower q.payload.entity) := by
      rw [hent]
    refine ⟨?_, ?_, ?_, ?_, ?_, ?_, q, hq, hu, hd, hent⟩
    · rw [hscoreq, hratio]
    · rw [hratio]
      exact hpos
    · rw [hratio]
      exact sm_ratio_le_one _ _
    · rw [hscoreq]
      exact pyRound3_nonneg (le_of_lt hpos)
    · rw [hscoreq]
      exact pyRound3_le_one (sm_ratio_le_one _ _)
    · intro hth
      rw [hscoreq]
      rw [hratio] at hth
      exact pyRound3_pos hth
  · simp only [search_entities_tool]
    apply List.Pairwise.sublist (List.take_sublist _ _)
    exact pairwise_pysortDesc (fun m : EntityMatch => m.score) _
  · intro c
    refine ⟨((pysortDesc (fun m : EntityMatch => m.score)
        (search_entities_matches u query scf s)).drop lim).filter
          (fun m => m.score == c), ?_⟩
    have hsplit : ∀ (l : List EntityMatch),
        (l.take lim).filter (fun m => m.score == c)
          ++ (l.drop lim).filter (fun m => m.score == c)
        = l.filter (fun m => m.score == c) := by
      intro l
      rw [← List.filter_append, List.take_append_drop]
    rw [search_entities_tool, hsplit]
    exact filter_pysortDesc (fun m : EntityMatch => m.score) c _
  · intro hlen m hm
    simp only [search_entities_tool]
    rw [List.take_of_length_le (by
      rw [(pysortDesc_perm (fun m : EntityMatch => m.score) _).length_eq]
      exact hlen)]
    exact (pysortDesc_perm (fun m : EntityMatch => m.score) _).mem_iff.mpr hm

def wStore8c : Store :=
  [⟨"m1", 0, wPayload "u" "Project Alpha" "t1" false none "global"⟩,
   ⟨"m2", 1, wPayload "u" "project_beta" "t2" false none "global"⟩,
   ⟨"m3", 2, wPayload "u" "unrelated" "t3" false none "global"⟩]

theorem search_entities_contract_witness :
    (search_entities_tool "u" "proj" none 5 wStore8c).length ≤ 5
    ∧ (∀ m ∈ search_entities_tool "u" "proj" none 5 wStore8c,
        m.score = pyRound3 (sm_ratio (pyLower "proj") (pyLower m.entity))
          ∧ 0 < sm_ratio (pyLower "proj") (pyLower m.entity)
          ∧ sm_ratio (pyLower "proj") (pyLower m.entity) ≤ 1
          ∧ 0 ≤ m.score ∧ m.score ≤ 1
          ∧ (1/2000 < sm_ratio (pyLower "proj") (pyLower m.entity) → 0 < m.score)
          ∧ ∃ q, q ∈ wStore8c ∧ q.payload.user = "u" ∧ q.payload.deleted = false
              ∧ m.entity = q.payload.entity)
    ∧ (search_entities_tool "u" "proj" none 5 wStore8c).Pairwise
        (fun m1 m2 : EntityMatch => m2.score ≤ m1.score)
    ∧ (∀ c : ℚ, ∃ t, ((search_entities_tool "u" "proj" none 5 wStore8c).filter
          (fun m => m.score == c)) ++ t
        = (search_entities_matches "u" "proj" none wStore8c).filter (fun m => m.score == c))
    ∧ ((search_entities_matches "u" "proj" none wStore8c).length ≤ 5 →
        ∀ m ∈ search_entities_matches "u" "proj" none wStore8c,
          m ∈ search_entities_tool "u" "proj" none 5 wStore8c) :=
  search_entities_contract "u" "proj" none 5 wStore8c

/-- C9: `set_project` (the spec's `ensure_project`) with a non-empty
project name, provided the caller's visible matching records fit in the
1000-record scroll page: if no non-deleted record of the user carries the
project (the existence scan excludes soft-deleted records, cf. the
soft-delete claim), a placeholder `project_context` record is created and
the result is `{exists: false, created: true, memory_count: 1}`;
otherwise the store is untouched and the result reports `exists: true`,
the count of the user's visible matching records, the histogram of those
records by `memory_type`, and the maximum `updated_at` among them. -/
theorem set_project_contract (embed : String → Nat) (uuid5 : String → String)
    (now u project : String) (s : Store)
    (hproj : project ≠ "")
    (hcap : (s.filter (fun pt => pt.payload.user == u && pt.payload.deleted == false
        && pt.payload.project == some project)).length ≤ 1000) :
    ((s.filter (fun pt => pt.payload.user == u && pt.payload.deleted == false
        && pt.payload.project == some project)) = [] →
      (set_project_tool embed uuid5 now u project s).1
          = { project := project, projExists := false, created := true, memory_count := 1,
              by_type := [("project_context", 1)], last_updated := none }
        ∧ qretrieve (set_project_tool embed uuid5 now u project s).2
            (generate_memory_id uuid5 project now)
          = some ⟨generate_memory_id uuid5 project now, embed ("Project: " ++ project),
              { user := u, text := "Project: " ++ project, memory_type := "project_context",
                scope := "project", entity := project, project := some project,
                task_id := none, related_to := [], relation_types := [], tags := [],
                created_at := now, updated_at := now, status := none, priority := none,
                deleted := false, deleted_at := none }⟩)
    ∧ ((s.filter (fun pt => pt.payload.user == u && pt.payload.deleted == false
        && pt.payload.project == some project)) ≠ [] →
        (set_project_tool embed uuid5 now u project s).2 = s
        ∧ (set_project_tool embed uuid5 now u project s).1.projExists = true
        ∧ (set_project_tool embed uuid5 now u project s).1.memory_count
            = (s.filter (fun pt => pt.payload.user == u && pt.payload.deleted == false
                && pt.payload.project == some project)).length
        ∧ (∀ t, lookupNat (set_project_tool embed uuid5 now u project s).1.by_type t
            = (s.filter (fun pt => pt.payload.user == u && pt.payload.deleted == false
                && pt.payload.project == some project)).countP
                  (fun pt => pt.payload.memory_type == t))
        ∧ ((∀ pt ∈ (s.filter (fun pt => pt.payload.user == u && pt.payload.deleted == false
              && pt.payload.project == some project)), pt.payload.updated_at ≠ "") →
            ∃ mx, (set_project_tool embed uuid5 now u project s).1.last_updated = some mx
              ∧ mx ∈ (s.filter (fun pt => pt.payload.user == u
                  && pt.payload.deleted == false
                  && pt.payload.project == some project)).map
                    (fun pt => pt.payload.updated_at)
              ∧ ∀ x ∈ (s.filter (fun pt => pt.payload.user == u
                  && pt.payload.deleted == false
                  && pt.payload.project == some project)).map
                    (fun pt => pt.payload.updated_at), x ≤ mx)) := by
  have hscan := qscroll_project_scan u project s hproj hcap
  constructor
  · intro hempty
    have hres : (qscroll s
        (build_filter u none (some project) MTArg.noneArg none none false) 1000).isEmpty
        = true := by
      rw [hscan, hempty]
      rfl
    constructor
    · simp only [set_project_tool, if_pos hres]
    · simp only [set_project_tool, if_pos hres]
      exact qretrieve_qupsert s _
  · intro hne
    have hres : ¬(qscroll s
        (build_filter u none (some project) MTArg.noneArg none none false) 1000).isEmpty
        = true := by
      rw [hscan]
      cases hfe : s.filter (fun pt => pt.payload.user == u && pt.payload.deleted == false
          && pt.payload.project == some project) with
      | nil => exact absurd hfe hne
      | cons x xs => simp
    refine ⟨?_, ?_, ?_, ?_, ?_⟩
    · simp only [set_project_tool, if_neg hres]
    · simp only [set_project_tool, if_neg hres]
    · simp only [set_project_tool, if_neg hres]
      rw [hscan]
    · intro t
      simp only [set_project_tool, if_neg hres]
      rw [hscan, lookupNat_byTypeFold]
    · intro hupd
      simp only [set_project_tool, if_neg hres]
      rw [hscan]
      exact lastUpdatedFold_max _ hne hupd

def wStore9 : Store :=
  [⟨"a1", 0, { wPayload "alice" "E1" "t1" false (some "P") "project" with
      memory_type := "project_context", updated_at := "2024-01-05T00:00:00" }⟩,
   ⟨"a2", 1, { wPayload "alice" "E2" "t2" false (some "P") "project" with
      memory_type := "episodic", updated_at := "2024-01-09T00:00:00" }⟩,
   ⟨"a3", 2, wPayload "alice" "E3" "t3" true (some "P") "project"⟩,
   ⟨"b1", 3, wPayload "bob" "E4" "t4" false (some "P") "project"⟩]

theorem set_project_contract_witness :
    ((set_project_tool wEmbed wUuid "T" "alice" "Q" []).1
          = { project := "Q", projExists := false, created := true, memory_count := 1,
              by_type := [("project_context", 1)], last_updated := none }
      ∧ (set_project_tool wEmbed wUuid "T" "alice" "P" wStore9).2 = wStore9
      ∧ (set_project_tool wEmbed wUuid "T" "alice" "P" wStore9).1.projExists = true
      ∧ (set_project_tool wEmbed wUuid "T" "alice" "P" wStore9).1.memory_count
          = (wStore9.filter (fun pt => pt.payload.user == "alice"
              && pt.payload.deleted == false && pt.payload.project == some "P")).length) := by
  refine ⟨?_, ?_, ?_, ?_⟩
  · exact ((set_project_contract wEmbed wUuid "T" "alice" "Q" [] (by decide) (by decide)).1
      (by decide)).1
  · exact ((set_project_contract wEmbed wUuid "T" "alice" "P" wStore9 (by decide)
      (by decide)).2 (by decide)).1
  · exact ((set_project_contract wEmbed wUuid "T" "alice" "P" wStore9 (by decide)
      (by decide)).2 (by decide)).2.1
  · exact ((set_project_contract wEmbed wUuid "T" "alice" "P" wStore9 (by decide)
      (by decide)).2 (by decide)).2.2.1

/-- C1: cross-user isolation.  For distinct users `u1 ≠ u2` and a record
of `u1` stored with a unique id: `search` by `u2` never returns an item
with that record's id; `retrieve_context` by `u2` never returns it, nor
resolves it as a related memory; `fetch` of its id by `u2` answers
`"Error: Unauthorized"` (no content); `link_memories` and `delete_memory`
by `u2` leave the record untouched in the store whatever their target id
is, and refuse with an unauthorized result (store unchanged) when
targeting the record's own id; `list_entities` and `search_entities` by
`u2` only ever surface entity labels of `u2`-owned records — every query
carries the `user == u2` predicate and every id-based operation checks
ownership. -/
theorem cross_user_isolation
    (embed : String → Nat) (sim : Nat → Nat → ℚ)
    (u1 u2 : String) (pt : Point) (s : Store)
    (hmem : pt ∈ s) (howner : pt.payload.user = u1) (hne : u1 ≠ u2)
    (hnd : (s.map Point.id).Nodup) :
    (∀ query, ∀ r ∈ search_tool embed sim u2 query s, r.id ≠ pt.id)
    ∧ (∀ a : RetrieveArgs, ∀ m ∈ retrieve_context_tool embed sim u2 a s,
        m.id ≠ pt.id ∧ ∀ rm ∈ m.related_memories, rm.id ≠ pt.id)
    ∧ fetch_tool u2 pt.id s = "Error: Unauthorized"
    ∧ (∀ now mid rid ty, pt ∈ (link_memories_tool now u2 mid rid ty s).2
        ∧ (mid = pt.id →
            link_memories_tool now u2 mid rid ty s = (LinkResult.unauthorized, s)))
    ∧ (∀ now mid, pt ∈ (delete_memory_tool now u2 mid s).2
        ∧ (mid = pt.id →
            delete_memory_tool now u2 mid s = (DeleteResult.unauthorized, s)))
    ∧ (∀ sc pr mt, ∀ e ∈ (list_entities_tool u2 sc pr mt s).entities,
        ∃ q, q ∈ s ∧ q.payload.user = u2 ∧ e.name = q.payload.entity)
    ∧ (∀ query scf lim, ∀ m ∈ search_entities_tool u2 query scf lim s,
        ∃ q, q ∈ s ∧ q.payload.user = u2 ∧ m.entity = q.payload.entity) := by
  have hretpt : qretrieve s pt.id = some pt := qretrieve_of_mem_nodup hnd hmem
  have hptu2 : pt.payload.user ≠ u2 := by
    rw [howner]
    exact hne
  refine ⟨?_, ?_, ?_, ?_, ?_, ?_, ?_⟩
  · intro query r hr heq
    obtain ⟨q, hq, hid, huser, _⟩ := mem_search_tool hr
    have hqpt : q = pt := eq_of_mem_nodup_id hnd hq hmem (by rw [← hid, heq])
    rw [hqpt] at huser
    exact hptu2 huser
  · intro a m hm
    obtain ⟨q, hq, hid, _, _, huser, _, _, hrel⟩ := mem_retrieve_context hm
    constructor
    · intro heq
      have hqpt : q = pt := eq_of_mem_nodup_id hnd hq hmem (by rw [← hid, heq])
      rw [hqpt] at huser
      exact hptu2 huser
    · intro rm hrm heq
      rw [hrel] at hrm
      by_cases hincl : a.include_related = true
      · rw [if_pos hincl] at hrm
        obtain ⟨relPt, hqr, hruser, _⟩ := mem_resolve_related hrm
        rw [heq, hretpt] at hqr
        obtain rfl := Option.some.inj hqr
        exact hptu2 hruser
      · rw [if_neg hincl] at hrm
        cases hrm
  · unfold fetch_tool
    rw [hretpt]
    dsimp only
    rw [if_pos hptu2]
  · intro now mid rid ty
    cases hq : qretrieve s mid with
    | none =>
      refine ⟨?_, ?_⟩
      · unfold link_memories_tool
        rw [hq]
        exact hmem
      · intro hmid
        rw [hmid, hretpt] at hq
        cases hq
    | some q =>
      by_cases hquser : q.payload.user = u2
      · have hqf : s.find? (fun x => x.id == mid) = some q := hq
        have hqmem : q ∈ s := List.mem_of_find?_eq_some hqf
        have hqid0 := List.find?_some hqf
        have hqid : q.id = mid := by
          have hqid1 : (q.id == mid) = true := hqid0
          exact beq_iff_eq.mp hqid1
        have hptq : pt.id ≠ mid := by
          intro hpm
          have hqpt : q = pt := eq_of_mem_nodup_id hnd hqmem hmem (by rw [hqid, hpm])
          rw [hqpt] at hquser
          exact hptu2 hquser
        refine ⟨?_, ?_⟩
        · unfold link_memories_tool
          rw [hq]
          dsimp only
          rw [if_neg (fun hc => hc hquser)]
          exact mem_qset_payload_of_ne hmem hptq
        · intro hmid
          exact absurd hmid.symm hptq
      · have hrun : link_memories_tool now u2 mid rid ty s = (LinkResult.unauthorized, s) := by
          unfold link_memories_tool
          rw [hq]
          dsimp only
          rw [if_pos hquser]
        exact ⟨by rw [hrun]; exact hmem, fun _ => hrun⟩
  · intro now mid
    cases hq : qretrieve s mid with
    | none =>
      refine ⟨?_, ?_⟩
      · unfold delete_memory_tool
        rw [hq]
        exact hmem
      · intro hmid
        rw [hmid, hretpt] at hq
        cases hq
    | some q =>
      by_cases hquser : q.payload.user = u2
      · have hqf : s.find? (fun x => x.id == mid) = some q := hq
        have hqmem : q ∈ s := List.mem_of_find?_eq_some hqf
        have hqid0 := List.find?_some hqf
        have hqid : q.id = mid := by
          have hqid1 : (q.id == mid) = true := hqid0
          exact beq_iff_eq.mp hqid1
        have hptq : pt.id ≠ mid := by
          intro hpm
          have hqpt : q = pt := eq_of_mem_nodup_id hnd hqmem hmem (by rw [hqid, hpm])
          rw [hqpt] at hquser
          exact hptu2 hquser
        refine ⟨?_, ?_⟩
        · unfold delete_memory_tool
          rw [hq]
          dsimp only
          rw [if_neg (fun hc => hc hquser)]
          by_cases hqdel : q.payload.deleted = true
          · rw [if_pos hqdel]
            exact hmem
          · rw [if_neg hqdel]
            exact mem_qset_payload_of_ne hmem hptq
        · intro hmid
          exact absurd hmid.symm hptq
      · have hrun : delete_memory_tool now u2 mid s = (DeleteResult.unauthorized, s) := by
          unfold delete_memory_tool
          rw [hq]
          dsimp only
          rw [if_pos hquser]
        exact ⟨by rw [hrun]; exact hmem, fun _ => hrun⟩
  · intro sc pr mt e he
    obtain ⟨q, hq, huser, _, hname⟩ := mem_list_entities he
    exact ⟨q, hq, huser, hname⟩
  · intro query scf lim m hm
    obtain ⟨q, hq, huser, _, hent, _, _⟩ :=
      mem_search_entities_matches (mem_search_entities_tool hm)
    exact ⟨q, hq, huser, hent⟩

def wPtA : Point := ⟨"a1", 0, wPayload "alice" "EA" "ta" false none "global"⟩

def wPtB : Point := ⟨"b1", 1, wPayload "bob" "EB" "tb" false none "global"⟩

def wStoreC1 : Store := [wPtA, wPtB]

theorem cross_user_isolation_witness :
    (∀ query, ∀ r ∈ search_tool wEmbed wSim "bob" query wStoreC1, r.id ≠ wPtA.id)
    ∧ (∀ a : RetrieveArgs, ∀ m ∈ retrieve_context_tool wEmbed wSim "bob" a wStoreC1,
        m.id ≠ wPtA.id ∧ ∀ rm ∈ m.related_memories, rm.id ≠ wPtA.id)
    ∧ fetch_tool "bob" wPtA.id wStoreC1 = "Error: Unauthorized"
    ∧ (∀ now mid rid ty, wPtA ∈ (link_memories_tool now "bob" mid rid ty wStoreC1).2
        ∧ (mid = wPtA.id →
            link_memories_tool now "bob" mid rid ty wStoreC1
              = (LinkResult.unauthorized, wStoreC1)))
    ∧ (∀ now mid, wPtA ∈ (delete_memory_tool now "bob" mid wStoreC1).2
        ∧ (mid = wPtA.id →
            delete_memory_tool now "bob" mid wStoreC1
              = (DeleteResult.unauthorized, wStoreC1)))
    ∧ (∀ sc pr mt, ∀ e ∈ (list_entities_tool "bob" sc pr mt wStoreC1).entities,
        ∃ q, q ∈ wStoreC1 ∧ q.payload.user = "bob" ∧ e.name = q.payload.entity)
    ∧ (∀ query scf lim, ∀ m ∈ search_entities_tool "bob" query scf lim wStoreC1,
        ∃ q, q ∈ wStoreC1 ∧ q.payload.user = "bob" ∧ m.entity = q.payload.entity) :=
  cross_user_isolation wEmbed wSim "alice" "bob" wPtA wStoreC1
    (by decide) (by decide) (by decide) (by decide)

end MinMemory
